import Mathlib

/-!
Verification of the DeltaOS boot-information parser (kernel/boot_info.c,
kernel/boot_info.h) against its natural-language specification.

The blob handed over by the bootloader is modelled as a total byte memory
`Blob : Nat → Nat` indexed by the byte offset from the start of the
`db_boot_info` header (offset 0 is the first byte the `info` pointer points
at).  A byte is read as `mem o % 256`; multi-byte fields are little-endian,
exactly as the packed C structures lay them out.  Pointer arithmetic of the C
code (`(const u8 *)info + ...`) is modelled as arithmetic on these offsets:
on the 64-bit target the pointer additions involved cannot wrap, so offsets
live in `Nat`, while every 32-bit arithmetic operation of the source is
modelled with an explicit `% 2^32`.
-/

/-- Byte memory starting at the boot-info pointer. -/
def Blob : Type := Nat → Nat

/-- Read one byte (u8) at offset `o`. -/
def readU8 (mem : Blob) (o : Nat) : Nat := mem o % 256

/-- Read a little-endian u16 at offset `o`. -/
def readU16 (mem : Blob) (o : Nat) : Nat :=
  readU8 mem o + 256 * readU8 mem (o + 1)

/-- Read a little-endian u32 at offset `o`. -/
def readU32 (mem : Blob) (o : Nat) : Nat :=
  readU16 mem o + 65536 * readU16 mem (o + 2)

/-- Read a little-endian u64 at offset `o`. -/
def readU64 (mem : Blob) (o : Nat) : Nat :=
  readU32 mem o + 4294967296 * readU32 mem (o + 4)

/-- Build a blob from an explicit byte list (bytes beyond the list are 0). -/
def blobOfList (l : List Nat) : Blob := fun o => l.getD o 0

/-! ### Header fields (struct db_boot_info, 16 bytes, packed) -/

/-- Field `magic` of the boot-info header. -/
def hdrMagic (mem : Blob) : Nat := readU32 mem 0

/-- Field `total_size` of the boot-info header. -/
def hdrTotalSize (mem : Blob) : Nat := readU32 mem 4

/-- Field `version` of the boot-info header. -/
def hdrVersion (mem : Blob) : Nat := readU32 mem 8

/-- Field `reserved` of the boot-info header. -/
def hdrReserved (mem : Blob) : Nat := readU32 mem 12

/-! ### boot_info_validate -/

/-- Checks of `boot_info_validate` on a non-NULL boot-info pointer:
magic, minimum size (header 16 + end tag 8), 16 MiB ceiling, minimum
version, zero reserved field. -/
def validateBlob (mem : Blob) : Bool :=
  if hdrMagic mem ≠ 0x44424F4B then false
  else if hdrTotalSize mem < 16 + 8 then false
  else if hdrTotalSize mem > 16 * 1024 * 1024 then false
  else if hdrVersion mem < 0x0001 then false
  else if hdrReserved mem ≠ 0 then false
  else true

/-- Full `boot_info_validate`, with `none` playing the role of a NULL
`info` pointer. -/
def boot_info_validate (info : Option Blob) : Bool :=
  match info with
  | none => false
  | some mem => validateBlob mem

/-! ### boot_info_get_next_tag -/

/-- Tag field `type` of the tag header at offset `t` (u16). -/
def tagType (mem : Blob) (t : Nat) : Nat := readU16 mem t

/-- Tag field `size` of the tag header at offset `t` (u32). -/
def tagSize (mem : Blob) (t : Nat) : Nat := readU32 mem (t + 4)

/-- The C macro `ALIGN_UP(size, 8)` evaluated in u32 arithmetic:
`((size + 8 - 1) & ~(8 - 1))` with wrap-around modulo 2^32. -/
def alignUp8u32 (s : Nat) : Nat := (s + 7) % 4294967296 / 8 * 8

/-- Shallow embedding of `boot_info_get_next_tag`.  Tag positions are byte
offsets from the boot-info base; `none` models a NULL tag pointer (both as
argument and as result). -/
def boot_info_get_next_tag (mem : Blob) (tag : Option Nat) : Option Nat :=
  let ts := hdrTotalSize mem
  match tag with
  | none =>
      -- first tag sits immediately after the 16-byte header
      if 16 + 8 > ts then none else some 16
  | some t =>
      if tagType mem t = 0 then none            -- DB_TAG_END
      else if tagSize mem t < 8 then none       -- size below header size
      else
        let aligned := alignUp8u32 (tagSize mem t)
        if aligned < tagSize mem t then none    -- overflow in ALIGN_UP
        else if t + aligned + 8 > ts then none  -- next header out of bounds
        else some (t + aligned)

/-- Refinement reference for claim C3, modelled from the spec's words
(section 4.2 of the spec): the step function the cursor is claimed to
implement, written with unbounded `align_up` plus an explicit u32-overflow
test. -/
def cursorStepSpec (mem : Blob) (tag : Option Nat) : Option Nat :=
  let ts := hdrTotalSize mem
  match tag with
  | none => if 16 + 8 ≤ ts then some 16 else none
  | some t =>
      let s := tagSize mem t
      if tagType mem t = 0 then none
      else if s < 8 then none
      else if 4294967296 ≤ (s + 7) / 8 * 8 then none
      else if t + (s + 7) / 8 * 8 + 8 > ts then none
      else some (t + (s + 7) / 8 * 8)

/-! ### The parsed result record (struct parsed_boot_info) -/

/-- Result record of `boot_info_parse`.  Tag pointers are modelled as byte
offsets of the recorded tag within the blob (`none` models NULL). -/
structure Parsed where
  has_memory_map : Bool
  has_framebuffer : Bool
  has_cmdline : Bool
  has_acpi : Bool
  has_smp : Bool
  has_initrd : Bool
  memory_map : Option Nat
  framebuffer : Option Nat
  cmdline : Option Nat
  acpi_rsdp : Option Nat
  smp : Option Nat
  initrd : Option Nat
  bootloader : Option Nat
  total_usable_memory_mb : Nat
  cpu_count : Nat
deriving DecidableEq

/-- The safe defaults `boot_info_parse` writes in its Step 2. -/
def initParsed : Parsed :=
  { has_memory_map := false
    has_framebuffer := false
    has_cmdline := false
    has_acpi := false
    has_smp := false
    has_initrd := false
    memory_map := none
    framebuffer := none
    cmdline := none
    acpi_rsdp := none
    smp := none
    initrd := none
    bootloader := none
    total_usable_memory_mb := 0
    cpu_count := 1 }

/-! ### Tag interpretation (the switch body of boot_info_parse) -/

/-- Scan of the `found_null` loops: is there a zero byte among the `len`
bytes starting at `base`? -/
def hasNullByte (mem : Blob) (base len : Nat) : Bool :=
  (List.range len).any fun i => readU8 mem (base + i) == 0

/-- Usable-memory accumulation over the entries of the memory-map tag at
offset `t`.  Entry `i` sits at `entries + (i * entry_size)` where the
multiplication is performed in u32 (it wraps modulo 2^32, as in the C
source); the accumulation uses `safe_add_u64`, keeping the previous running
total whenever an addition would exceed `U64_MAX`. -/
def usableTotal (mem : Blob) (t : Nat) : Nat :=
  let es := readU32 mem (t + 8)
  let n := readU32 mem (t + 12)
  (List.range n).foldl
    (fun total i =>
      let e := t + 16 + i * es % 4294967296
      if readU32 mem (e + 16) = 1 then
        -- DB_MEM_USABLE
        let l := readU64 mem (e + 8)
        if l > 18446744073709551615 - total then total else total + l
      else total)
    0

/-- Conversion of the running byte total to megabytes, including the C
truncating cast `(u32)(total_usable / (1024 * 1024))`. -/
def mmapMB (mem : Blob) (t : Nat) : Nat :=
  usableTotal mem t / (1024 * 1024) % 4294967296

/-- One iteration of the tag switch of `boot_info_parse` for a non-End tag
at offset `t` (the End case is handled by the loop itself). -/
def processTag (mem : Blob) (acc : Parsed) (t : Nat) : Parsed :=
  if tagType mem t = 2 then
    -- DB_TAG_MEMORY_MAP
    if tagSize mem t < 8 + 8 then acc
    else if readU32 mem (t + 8) < 24 then acc
    else { acc with
             memory_map := some t
             has_memory_map := true
             total_usable_memory_mb := mmapMB mem t }
  else if tagType mem t = 3 then
    -- DB_TAG_FRAMEBUFFER (packed size 40)
    if tagSize mem t < 40 then acc
    else if readU32 mem (t + 16) = 0 ∨ readU32 mem (t + 20) = 0 ∨
        readU8 mem (t + 28) = 0 then acc
    else if readU64 mem (t + 8) = 0 then acc
    else { acc with framebuffer := some t, has_framebuffer := true }
  else if tagType mem t = 1 then
    -- DB_TAG_CMDLINE
    if tagSize mem t ≤ 8 then acc
    else if hasNullByte mem (t + 8) (tagSize mem t - 8) then
      { acc with cmdline := some t, has_cmdline := true }
    else acc
  else if tagType mem t = 5 then
    -- DB_TAG_ACPI_RSDP (packed size 16)
    if tagSize mem t < 16 then acc
    else if readU64 mem (t + 8) = 0 then acc
    else { acc with acpi_rsdp := some t, has_acpi := true }
  else if tagType mem t = 6 then
    -- DB_TAG_SMP
    if tagSize mem t < 8 + 8 then acc
    else if readU32 mem (t + 8) = 0 then acc
    else { acc with
             smp := some t
             has_smp := true
             cpu_count := readU32 mem (t + 8) }
  else if tagType mem t = 11 then
    -- DB_TAG_INITRD (packed size 24)
    if tagSize mem t < 24 then acc
    else if readU64 mem (t + 8) = 0 ∨ readU64 mem (t + 16) = 0 then acc
    else { acc with initrd := some t, has_initrd := true }
  else if tagType mem t = 8 then
    -- DB_TAG_BOOTLOADER
    if tagSize mem t ≤ 8 then acc
    else if hasNullByte mem (t + 8) (tagSize mem t - 8) then
      { acc with bootloader := some t }
    else acc
  else
    -- unknown tag: skipped for forward compatibility
    acc

/-! ### The parse loop and boot_info_parse -/

/-- The tag-iteration loop of `boot_info_parse`.  `count` is `tag_count`
just before the next increment; `fuel` only drives the recursion and equals
`1001 - count` at every call issued from `boot_info_parse`, so the fuel can
never run out before the 1000-tag cap fires. -/
def parseLoop (mem : Blob) (acc : Parsed) (tag : Option Nat) (count : Nat) :
    Nat → Bool × Parsed
  | 0 => (false, acc)
  | fuel + 1 =>
      match boot_info_get_next_tag mem tag with
      | none => (false, acc)               -- loop ended with no End tag seen
      | some t =>
          if count + 1 > 1000 then (false, acc)       -- tag_count > max_tags
          else if tagType mem t = 0 then
            -- End tag: break, then check the required memory map
            (acc.has_memory_map, acc)
          else
            parseLoop mem (processTag mem acc t) (some t) (count + 1) fuel

/-- Shallow embedding of `boot_info_parse`.  The C function receives the
output structure by pointer; this is modelled by threading the caller's
record `p0` through: the pair returned is (boolean result, final contents of
`*parsed`).  When header validation fails the C code returns before touching
`*parsed`, so `p0` comes back unchanged. -/
def boot_info_parse (mem : Blob) (p0 : Parsed) : Bool × Parsed :=
  if validateBlob mem then parseLoop mem initParsed none 0 1001
  else (false, p0)

/-! ### The cursor chain -/

/-- The sequence of tag offsets enumerated by the cursor starting after
`tag`, up to and including the first `End` tag; `none` if the cursor gives
up (or the fuel is exhausted) before an `End` tag is reached. -/
def chainToEnd (mem : Blob) (tag : Option Nat) : Nat → Option (List Nat)
  | 0 => none
  | fuel + 1 =>
      match boot_info_get_next_tag mem tag with
      | none => none
      | some t =>
          if tagType mem t = 0 then some [t]
          else (chainToEnd mem (some t) fuel).map (t :: ·)

/-! ### Concrete blobs used as witnesses and counterexamples -/

/-- Scenario-A blob exactly as the spec writes it: `total_size = 32`, one
MemoryMap tag (`entry_size = 24`, `entry_count = 1`, one usable entry of
`0x10000000` bytes), then an End tag.  The bytes of the tags are all
physically present; only the declared `total_size` is 32. -/
def a32mem : Blob := blobOfList
  [0x4B, 0x4F, 0x42, 0x44,  32, 0, 0, 0,  1, 0, 0, 0,  0, 0, 0, 0,
   2, 0,  0, 0,  40, 0, 0, 0,  24, 0, 0, 0,  1, 0, 0, 0,
   0, 0, 0, 0, 0, 0, 0, 0,
   0, 0, 0, 0x10, 0, 0, 0, 0,
   1, 0, 0, 0,  0, 0, 0, 0,
   0, 0,  0, 0,  8, 0, 0, 0]

/-- Scenario-A blob with the consistent `total_size = 64` (16-byte header +
40-byte MemoryMap tag + 8-byte End tag). -/
def a64mem : Blob := blobOfList
  [0x4B, 0x4F, 0x42, 0x44,  64, 0, 0, 0,  1, 0, 0, 0,  0, 0, 0, 0,
   2, 0,  0, 0,  40, 0, 0, 0,  24, 0, 0, 0,  1, 0, 0, 0,
   0, 0, 0, 0, 0, 0, 0, 0,
   0, 0, 0, 0x10, 0, 0, 0, 0,
   1, 0, 0, 0,  0, 0, 0, 0,
   0, 0,  0, 0,  8, 0, 0, 0]

/-- Same layout as `a64mem`, but the single usable entry has length
2^52 bytes, so the usable-byte total divided by 2^20 equals 2^32 and the
u32 store truncates it to 0. -/
def c9mem : Blob := blobOfList
  [0x4B, 0x4F, 0x42, 0x44,  64, 0, 0, 0,  1, 0, 0, 0,  0, 0, 0, 0,
   2, 0,  0, 0,  40, 0, 0, 0,  24, 0, 0, 0,  1, 0, 0, 0,
   0, 0, 0, 0, 0, 0, 0, 0,
   0, 0, 0, 0, 0, 0, 0x10, 0,
   1, 0, 0, 0,  0, 0, 0, 0,
   0, 0,  0, 0,  8, 0, 0, 0]

/-- A 24-byte blob (`total_size = 24`): valid header followed by one
MemoryMap tag header claiming `size = 16`.  Its `entry_size`/`entry_count`
fields would live at offsets 24..31 — outside the declared bounds. -/
def c1memA : Blob := blobOfList
  [0x4B, 0x4F, 0x42, 0x44,  24, 0, 0, 0,  1, 0, 0, 0,  0, 0, 0, 0,
   2, 0,  0, 0,  16, 0, 0, 0]

/-- Identical to `c1memA` on every byte inside the declared bounds
`[0, 24)`, but with different bytes at offsets 24..31 (where the MemoryMap
tag's `entry_size = 24` and `entry_count = 0` would sit). -/
def c1memB : Blob := blobOfList
  [0x4B, 0x4F, 0x42, 0x44,  24, 0, 0, 0,  1, 0, 0, 0,  0, 0, 0, 0,
   2, 0,  0, 0,  16, 0, 0, 0,
   24, 0, 0, 0,  0, 0, 0, 0]

/-- A blob with a valid header (`total_size = 32`) and one fully valid
MemoryMap tag, but no End tag inside the declared bounds: the parse fails
after having recorded the memory map. -/
def cex6mem : Blob := blobOfList
  [0x4B, 0x4F, 0x42, 0x44,  32, 0, 0, 0,  1, 0, 0, 0,  0, 0, 0, 0,
   2, 0,  0, 0,  16, 0, 0, 0,  24, 0, 0, 0,  0, 0, 0, 0]

/-- A blob whose magic number is wrong, so header validation fails. -/
def badMagicMem : Blob := blobOfList [0]

/-- A valid blob whose declared `total_size` sits exactly at the 16 MiB
ceiling (the tags — one MemoryMap tag and an End tag — occupy only the
first 40 bytes; everything beyond is zero). -/
def cap16MiBMem : Blob := blobOfList
  [0x4B, 0x4F, 0x42, 0x44,  0, 0, 0, 1,  1, 0, 0, 0,  0, 0, 0, 0,
   2, 0,  0, 0,  16, 0, 0, 0,  24, 0, 0, 0,  0, 0, 0, 0,
   0, 0,  0, 0,  8, 0, 0, 0]

/-- Bytes of a minimal well-formed vendor tag: `type = 0x8000`, `flags = 0`,
`size = 8`. -/
def ins8blob : Blob := blobOfList [0, 0x80,  0, 0,  8, 0, 0, 0]

/-! ### Per-kind validity predicates (the skip conditions of the switch) -/

/-- Condition under which the MemoryMap case records the tag at `t`. -/
def mmapValid (mem : Blob) (t : Nat) : Prop :=
  tagType mem t = 2 ∧ 8 + 8 ≤ tagSize mem t ∧ 24 ≤ readU32 mem (t + 8)

/-- Condition under which the Framebuffer case records the tag at `t`. -/
def fbValid (mem : Blob) (t : Nat) : Prop :=
  tagType mem t = 3 ∧ 40 ≤ tagSize mem t ∧
    readU32 mem (t + 16) ≠ 0 ∧ readU32 mem (t + 20) ≠ 0 ∧
    readU8 mem (t + 28) ≠ 0 ∧ readU64 mem (t + 8) ≠ 0

/-- Condition under which the Cmdline case records the tag at `t`. -/
def cmdValid (mem : Blob) (t : Nat) : Prop :=
  tagType mem t = 1 ∧ 8 < tagSize mem t ∧
    hasNullByte mem (t + 8) (tagSize mem t - 8) = true

/-- Condition under which the AcpiRsdp case records the tag at `t`. -/
def acpiValid (mem : Blob) (t : Nat) : Prop :=
  tagType mem t = 5 ∧ 16 ≤ tagSize mem t ∧ readU64 mem (t + 8) ≠ 0

/-- Condition under which the Smp case records the tag at `t`. -/
def smpValid (mem : Blob) (t : Nat) : Prop :=
  tagType mem t = 6 ∧ 8 + 8 ≤ tagSize mem t ∧ readU32 mem (t + 8) ≠ 0

/-- Condition under which the Initrd case records the tag at `t`. -/
def initrdValid (mem : Blob) (t : Nat) : Prop :=
  tagType mem t = 11 ∧ 24 ≤ tagSize mem t ∧
    readU64 mem (t + 8) ≠ 0 ∧ readU64 mem (t + 16) ≠ 0

/-- Condition under which the Bootloader case records the tag at `t`. -/
def blValid (mem : Blob) (t : Nat) : Prop :=
  tagType mem t = 8 ∧ 8 < tagSize mem t ∧
    hasNullByte mem (t + 8) (tagSize mem t - 8) = true

instance (mem : Blob) (t : Nat) : Decidable (mmapValid mem t) := by
  unfold mmapValid; infer_instance

instance (mem : Blob) (t : Nat) : Decidable (fbValid mem t) := by
  unfold fbValid; infer_instance

instance (mem : Blob) (t : Nat) : Decidable (cmdValid mem t) := by
  unfold cmdValid; infer_instance

instance (mem : Blob) (t : Nat) : Decidable (acpiValid mem t) := by
  unfold acpiValid; infer_instance

instance (mem : Blob) (t : Nat) : Decidable (smpValid mem t) := by
  unfold smpValid; infer_instance

instance (mem : Blob) (t : Nat) : Decidable (initrdValid mem t) := by
  unfold initrdValid; infer_instance

instance (mem : Blob) (t : Nat) : Decidable (blValid mem t) := by
  unfold blValid; infer_instance

/-! ### Last-recorded-occurrence machinery -/

/-- The last element of `P` satisfying `v` (as the fold the parse loop
computes), or `none` when no element qualifies. -/
def lastRec (v : Nat → Prop) [DecidablePred v] (P : List Nat) : Option Nat :=
  P.foldl (fun x t => if v t then some t else x) none

/-- Blob with two individually valid MemoryMap tags (at offsets 16 and 32)
followed by the End tag; used to witness the last-one-wins behaviour. -/
def c10mem : Blob := blobOfList
  [0x4B, 0x4F, 0x42, 0x44,  56, 0, 0, 0,  1, 0, 0, 0,  0, 0, 0, 0,
   2, 0,  0, 0,  16, 0, 0, 0,  24, 0, 0, 0,  0, 0, 0, 0,
   2, 0,  0, 0,  16, 0, 0, 0,  24, 0, 0, 0,  0, 0, 0, 0,
   0, 0,  0, 0,  8, 0, 0, 0]

/-! ### Claim C8: inserting an unknown tag at the front of the sequence -/

/-- The blob obtained from `mem` by inserting, immediately after the
16-byte header, an unknown tag occupying `D` bytes (its bytes given by
`ins`), and bumping the declared `total_size` by `D` (bytes 4..7 hold the
little-endian encoding of the new size); all original tag bytes shift up
by `D`. -/
def insertFront (mem ins : Blob) (D : Nat) : Blob := fun o =>
  if o < 4 then mem o
  else if o = 4 then (hdrTotalSize mem + D) % 256
  else if o = 5 then (hdrTotalSize mem + D) / 256 % 256
  else if o = 6 then (hdrTotalSize mem + D) / 65536 % 256
  else if o = 7 then (hdrTotalSize mem + D) / 16777216 % 256
  else if o < 16 then mem o
  else if o < 16 + D then ins (o - 16)
  else mem (o - D)

/-- The result record with every recorded tag offset shifted up by `D`
(flags and derived scalars untouched). -/
def shiftParsed (D : Nat) (p : Parsed) : Parsed :=
  { p with
      memory_map := p.memory_map.map (· + D)
      framebuffer := p.framebuffer.map (· + D)
      cmdline := p.cmdline.map (· + D)
      acpi_rsdp := p.acpi_rsdp.map (· + D)
      smp := p.smp.map (· + D)
      initrd := p.initrd.map (· + D)
      bootloader := p.bootloader.map (· + D) }

theorem readU8_lt (mem : Blob) (o : Nat) : readU8 mem o < 256 :=
  Nat.mod_lt _ (by omega)

theorem readU16_lt (mem : Blob) (o : Nat) : readU16 mem o < 65536 := by
  have h1 := readU8_lt mem o
  have h2 := readU8_lt mem (o + 1)
  unfold readU16
  omega

theorem readU32_lt (mem : Blob) (o : Nat) : readU32 mem o < 4294967296 := by
  have h1 := readU16_lt mem o
  have h2 := readU16_lt mem (o + 2)
  unfold readU32
  omega

theorem readU64_lt (mem : Blob) (o : Nat) :
    readU64 mem o < 18446744073709551616 := by
  have h1 := readU32_lt mem o
  have h2 := readU32_lt mem (o + 4)
  unfold readU64
  omega

/-! ### Claim C2: the cursor never returns a header-truncated position -/

/-- Claim C2 — whenever `boot_info_get_next_tag` returns a tag position `p`
rather than none, the full 8-byte tag header at `p` lies inside the blob:
`p + 8 ≤ total_size`.  This holds for every blob (hence in particular for
every header-validated one), for all `total_size` and tag `size` values,
including values near `u32::MAX`. -/
theorem cursor_bounds_safety (mem : Blob) (tag : Option Nat) (p : Nat)
    (h : boot_info_get_next_tag mem tag = some p) :
    p + 8 ≤ hdrTotalSize mem := by
  unfold boot_info_get_next_tag at h
  cases tag with
  | none =>
      simp only at h
      split at h
      · exact absurd h (by simp)
      · simp only [Option.some.injEq] at h
        omega
  | some t =>
      simp only at h
      split at h
      · exact absurd h (by simp)
      · split at h
        · exact absurd h (by simp)
        · split at h
          · exact absurd h (by simp)
          · split at h
            · exact absurd h (by simp)
            · simp only [Option.some.injEq] at h
              omega

/-- Witness for C2 at a concrete blob: the first tag of a 24-byte blob. -/
theorem cursor_bounds_safety_witness :
    boot_info_get_next_tag (blobOfList [0x4B, 0x4F, 0x42, 0x44,
      24, 0, 0, 0, 1, 0, 0, 0, 0, 0, 0, 0]) none = some 16 ∧
    16 + 8 ≤ hdrTotalSize (blobOfList [0x4B, 0x4F, 0x42, 0x44,
      24, 0, 0, 0, 1, 0, 0, 0, 0, 0, 0, 0]) :=
  ⟨by decide, cursor_bounds_safety _ none 16 (by decide)⟩

/-! ### Claim C3: the cursor implements exactly the claimed step function -/

/-- Claim C3 — `boot_info_get_next_tag` implements exactly the step function
stated in the spec: first-tag probe after the 16-byte header, termination on
an `End` previous tag, rejection of `size < 8`, and otherwise an advance by
`align_up(size, 8)` that returns none on u32 overflow of the alignment or
when the next 8-byte tag header would extend past `total_size`. -/
theorem cursor_implements_spec_step (mem : Blob) (tag : Option Nat) :
    boot_info_get_next_tag mem tag = cursorStepSpec mem tag := by
  unfold boot_info_get_next_tag cursorStepSpec
  cases tag with
  | none =>
      simp only
      split <;> split <;> first | rfl | omega
  | some t =>
      simp only
      have hlt : tagSize mem t < 4294967296 := readU32_lt mem (t + 4)
      split
      · rfl
      · split
        · rfl
        · -- neither End nor undersized: relate the u32 ALIGN_UP to the
          -- unbounded one
          set s := tagSize mem t with hs
          have key : alignUp8u32 s < s ↔ 4294967296 ≤ (s + 7) / 8 * 8 := by
            unfold alignUp8u32
            rcases Nat.lt_or_ge (s + 7) 4294967296 with hsmall | hbig
            · rw [Nat.mod_eq_of_lt hsmall]
              omega
            · have hmod : (s + 7) % 4294967296 = s + 7 - 4294967296 := by
                omega
              rw [hmod]
              omega
          have align_eq : ¬ 4294967296 ≤ (s + 7) / 8 * 8 →
              alignUp8u32 s = (s + 7) / 8 * 8 := by
            intro hno
            unfold alignUp8u32
            rw [Nat.mod_eq_of_lt (by omega)]
          rcases Nat.lt_or_ge (alignUp8u32 s) s with hov | hok
          · rw [if_pos hov, if_pos (key.mp hov)]
          · have hno : ¬ 4294967296 ≤ (s + 7) / 8 * 8 := fun hc => by
              omega
            rw [if_neg (by omega), if_neg hno, align_eq hno]

/-! ### Claim C4: boot_info_validate is exactly the six header checks -/

/-- Claim C4 — `boot_info_validate info` returns true iff `info` is present,
its magic is 0x44424F4B, its `total_size` lies in [24, 16 MiB], its
`version` is at least 0x0001 and its `reserved` field is zero.  The
embedding is a pure function of the blob, so it reads the blob only and has
no side effects. -/
theorem validate_iff_checks (info : Option Blob) :
    boot_info_validate info = true ↔
    ∃ mem, info = some mem ∧
      hdrMagic mem = 0x44424F4B ∧
      16 + 8 ≤ hdrTotalSize mem ∧
      hdrTotalSize mem ≤ 16 * 1024 * 1024 ∧
      0x0001 ≤ hdrVersion mem ∧
      hdrReserved mem = 0 := by
  cases info with
  | none => simp [boot_info_validate]
  | some mem =>
      simp only [boot_info_validate, Option.some.injEq]
      constructor
      · intro h
        unfold validateBlob at h
        split_ifs at h with h1 h2 h3 h4 h5
        push_neg at h1 h2 h3 h4 h5
        exact ⟨mem, rfl, h1, by omega, by omega, by omega, h5⟩
      · rintro ⟨m, hm, h1, h2, h3, h4, h5⟩
        cases hm
        unfold validateBlob
        rw [if_neg (by omega), if_neg (by omega), if_neg (by omega),
          if_neg (by omega), if_neg (by omega)]

/-! ### Claim C1: out-of-bounds reads in boot_info_parse -/

/-- Claim C1 is false of the code: `c1memA` and `c1memB` agree on every byte
of the declared blob `[0, total_size) = [0, 24)` and both pass
`boot_info_validate`, yet `boot_info_parse` returns different results — so
the parse must have read memory outside the blob's declared bounds (it reads
the MemoryMap tag's `entry_size`/`entry_count` fields at offsets 24..31
without checking the tag's claimed extent against `total_size`). -/
theorem parse_reads_out_of_bounds :
    ((List.range 24).all fun o => c1memA o == c1memB o) = true ∧
    validateBlob c1memA = true ∧
    validateBlob c1memB = true ∧
    hdrTotalSize c1memA = 24 ∧
    boot_info_parse c1memA initParsed ≠ boot_info_parse c1memB initParsed := by
  refine ⟨by decide, by decide, by decide, by decide, by decide⟩

/-! ### Claim C7: Scenario A -/

/-- Claim C7 as written is false of the code: with the spec's
`total_size = 32` the cursor refuses to move past the 40-byte MemoryMap tag
(the End tag's header at offset 56 would extend past byte 32), so no End tag
is ever seen and the parse fails instead of succeeding. -/
theorem scenario_a_as_written_fails :
    (boot_info_parse a32mem initParsed).1 = false := by decide

/-- Claim C7 amended — with the consistent `total_size = 64` (the actual
byte length of header + MemoryMap tag + End tag), Scenario A parses
successfully with `total_usable_memory_mb = 256` and `cpu_count = 1`. -/
theorem scenario_a_amended :
    (boot_info_parse a64mem initParsed).1 = true ∧
    (boot_info_parse a64mem initParsed).2.total_usable_memory_mb = 256 ∧
    (boot_info_parse a64mem initParsed).2.cpu_count = 1 := by
  refine ⟨by decide, by decide, by decide⟩

/-! ### Claim C6: what failure leaves in the output record -/

/-- Claim C6 is false of the code: on `cex6mem` the parse fails (missing End
tag), yet the output record reports a recovered memory map
(`has_memory_map = true`) — the C function fills `*parsed` as it scans and
does not clear it on late failure. -/
theorem failure_leaves_recovered_fields :
    (boot_info_parse cex6mem initParsed).1 = false ∧
    (boot_info_parse cex6mem initParsed).2.has_memory_map = true ∧
    (boot_info_parse cex6mem initParsed).2.memory_map = some 16 := by
  refine ⟨by decide, by decide, by decide⟩

/-- Claim C6 amended — the all-or-nothing contract lives in the boolean
result alone: when header validation fails the record is returned exactly as
the caller passed it in; after validation the record is re-initialized and
may retain fields recorded before a later abort, which the caller must
ignore whenever the result is failure. -/
theorem failure_before_init_keeps_record (mem : Blob) (p0 : Parsed)
    (h : validateBlob mem = false) :
    boot_info_parse mem p0 = (false, p0) := by
  simp [boot_info_parse, h]

/-- Witness for the amended C6 at a concrete blob with a bad magic. -/
theorem failure_before_init_keeps_record_witness :
    validateBlob badMagicMem = false ∧
    boot_info_parse badMagicMem initParsed = (false, initParsed) :=
  ⟨by decide, failure_before_init_keeps_record badMagicMem initParsed
    (by decide)⟩

/-! ### Claim C9 counterexample: the u32 cast truncates the MB total -/

/-- Claim C9 as written is false of the code: on `c9mem` the recorded
MemoryMap tag's running usable total is 2^52, whose quotient by 1,048,576 is
2^32, but the result field holds `(u32)(2^52 / 1048576) = 0` — the C cast
truncates the division result modulo 2^32. -/
theorem mb_total_truncated :
    (boot_info_parse c9mem initParsed).1 = true ∧
    (boot_info_parse c9mem initParsed).2.memory_map = some 16 ∧
    usableTotal c9mem 16 / 1048576 = 4294967296 ∧
    (boot_info_parse c9mem initParsed).2.total_usable_memory_mb = 0 := by
  refine ⟨by decide, by decide, by decide, by decide⟩

/-- The switch of `boot_info_parse`, re-expressed as a mutually exclusive
chain over the per-kind record conditions. -/
theorem processTag_eq (mem : Blob) (acc : Parsed) (t : Nat) :
    processTag mem acc t =
      if mmapValid mem t then
        { acc with memory_map := some t, has_memory_map := true,
                   total_usable_memory_mb := mmapMB mem t }
      else if fbValid mem t then
        { acc with framebuffer := some t, has_framebuffer := true }
      else if cmdValid mem t then
        { acc with cmdline := some t, has_cmdline := true }
      else if acpiValid mem t then
        { acc with acpi_rsdp := some t, has_acpi := true }
      else if smpValid mem t then
        { acc with smp := some t, has_smp := true,
                   cpu_count := readU32 mem (t + 8) }
      else if initrdValid mem t then
        { acc with initrd := some t, has_initrd := true }
      else if blValid mem t then
        { acc with bootloader := some t }
      else acc := by
  unfold processTag
  by_cases h2 : tagType mem t = 2
  · have nfb : ¬ fbValid mem t := fun hx => by have := hx.1; omega
    have ncmd : ¬ cmdValid mem t := fun hx => by have := hx.1; omega
    have nacpi : ¬ acpiValid mem t := fun hx => by have := hx.1; omega
    have nsmp : ¬ smpValid mem t := fun hx => by have := hx.1; omega
    have nird : ¬ initrdValid mem t := fun hx => by have := hx.1; omega
    have nbl : ¬ blValid mem t := fun hx => by have := hx.1; omega
    rw [if_pos h2]
    by_cases hsz : tagSize mem t < 8 + 8
    · have nmm : ¬ mmapValid mem t := fun hx => by have := hx.2.1; omega
      rw [if_pos hsz, if_neg nmm, if_neg nfb, if_neg ncmd, if_neg nacpi,
        if_neg nsmp, if_neg nird, if_neg nbl]
    · by_cases hes : readU32 mem (t + 8) < 24
      · have nmm : ¬ mmapValid mem t := fun hx => by have := hx.2.2; omega
        rw [if_neg hsz, if_pos hes, if_neg nmm, if_neg nfb, if_neg ncmd,
          if_neg nacpi, if_neg nsmp, if_neg nird, if_neg nbl]
      · have hmm : mmapValid mem t := ⟨h2, by omega, by omega⟩
        rw [if_neg hsz, if_neg hes, if_pos hmm]
  · have nmm : ¬ mmapValid mem t := fun hx => h2 hx.1
    rw [if_neg h2]
    by_cases h3 : tagType mem t = 3
    · have ncmd : ¬ cmdValid mem t := fun hx => by have := hx.1; omega
      have nacpi : ¬ acpiValid mem t := fun hx => by have := hx.1; omega
      have nsmp : ¬ smpValid mem t := fun hx => by have := hx.1; omega
      have nird : ¬ initrdValid mem t := fun hx => by have := hx.1; omega
      have nbl : ¬ blValid mem t := fun hx => by have := hx.1; omega
      rw [if_pos h3]
      by_cases hsz : tagSize mem t < 40
      · have nfb : ¬ fbValid mem t := fun hx => by have := hx.2.1; omega
        rw [if_pos hsz, if_neg nmm, if_neg nfb, if_neg ncmd, if_neg nacpi,
          if_neg nsmp, if_neg nird, if_neg nbl]
      · by_cases hdim : readU32 mem (t + 16) = 0 ∨ readU32 mem (t + 20) = 0 ∨
            readU8 mem (t + 28) = 0
        · have nfb : ¬ fbValid mem t := fun hx => by
            rcases hdim with h | h | h
            exacts [hx.2.2.1 h, hx.2.2.2.1 h, hx.2.2.2.2.1 h]
          rw [if_neg hsz, if_pos hdim, if_neg nmm, if_neg nfb, if_neg ncmd,
            if_neg nacpi, if_neg nsmp, if_neg nird, if_neg nbl]
        · by_cases haddr : readU64 mem (t + 8) = 0
          · have nfb : ¬ fbValid mem t := fun hx => hx.2.2.2.2.2 haddr
            rw [if_neg hsz, if_neg hdim, if_pos haddr, if_neg nmm,
              if_neg nfb, if_neg ncmd, if_neg nacpi, if_neg nsmp,
              if_neg nird, if_neg nbl]
          · have hfb : fbValid mem t :=
              ⟨h3, by omega, fun h => hdim (Or.inl h),
                fun h => hdim (Or.inr (Or.inl h)),
                fun h => hdim (Or.inr (Or.inr h)), haddr⟩
            rw [if_neg hsz, if_neg hdim, if_neg haddr, if_neg nmm,
              if_pos hfb]
    · have nfb : ¬ fbValid mem t := fun hx => h3 hx.1
      rw [if_neg h3]
      by_cases h1 : tagType mem t = 1
      · have nacpi : ¬ acpiValid mem t := fun hx => by have := hx.1; omega
        have nsmp : ¬ smpValid mem t := fun hx => by have := hx.1; omega
        have nird : ¬ initrdValid mem t := fun hx => by have := hx.1; omega
        have nbl : ¬ blValid mem t := fun hx => by have := hx.1; omega
        rw [if_pos h1]
        by_cases hsz : tagSize mem t ≤ 8
        · have ncmd : ¬ cmdValid mem t := fun hx => by have := hx.2.1; omega
          rw [if_pos hsz, if_neg nmm, if_neg nfb, if_neg ncmd, if_neg nacpi,
            if_neg nsmp, if_neg nird, if_neg nbl]
        · by_cases hnb : hasNullByte mem (t + 8) (tagSize mem t - 8) = true
          · have hcmd : cmdValid mem t := ⟨h1, by omega, hnb⟩
            rw [if_neg hsz, if_pos hnb, if_neg nmm, if_neg nfb, if_pos hcmd]
          · have ncmd : ¬ cmdValid mem t := fun hx => hnb hx.2.2
            rw [if_neg hsz, if_neg hnb, if_neg nmm, if_neg nfb, if_neg ncmd,
              if_neg nacpi, if_neg nsmp, if_neg nird, if_neg nbl]
      · have ncmd : ¬ cmdValid mem t := fun hx => h1 hx.1
        rw [if_neg h1]
        by_cases h5 : tagType mem t = 5
        · have nsmp : ¬ smpValid mem t := fun hx => by have := hx.1; omega
          have nird : ¬ initrdValid mem t := fun hx => by have := hx.1; omega
          have nbl : ¬ blValid mem t := fun hx => by have := hx.1; omega
          rw [if_pos h5]
          by_cases hsz : tagSize mem t < 16
          · have nacpi : ¬ acpiValid mem t := fun hx => by
              have := hx.2.1; omega
            rw [if_pos hsz, if_neg nmm, if_neg nfb, if_neg ncmd,
              if_neg nacpi, if_neg nsmp, if_neg nird, if_neg nbl]
          · by_cases haddr : readU64 mem (t + 8) = 0
            · have nacpi : ¬ acpiValid mem t := fun hx => hx.2.2 haddr
              rw [if_neg hsz, if_pos haddr, if_neg nmm, if_neg nfb,
                if_neg ncmd, if_neg nacpi, if_neg nsmp, if_neg nird,
                if_neg nbl]
            · have hacpi : acpiValid mem t := ⟨h5, by omega, haddr⟩
              rw [if_neg hsz, if_neg haddr, if_neg nmm, if_neg nfb,
                if_neg ncmd, if_pos hacpi]
        · have nacpi : ¬ acpiValid mem t := fun hx => h5 hx.1
          rw [if_neg h5]
          by_cases h6 : tagType mem t = 6
          · have nird : ¬ initrdValid mem t := fun hx => by
              have := hx.1; omega
            have nbl : ¬ blValid mem t := fun hx => by have := hx.1; omega
            rw [if_pos h6]
            by_cases hsz : tagSize mem t < 8 + 8
            · have nsmp : ¬ smpValid mem t := fun hx => by
                have := hx.2.1; omega
              rw [if_pos hsz, if_neg nmm, if_neg nfb, if_neg ncmd,
                if_neg nacpi, if_neg nsmp, if_neg nird, if_neg nbl]
            · by_cases hcpu : readU32 mem (t + 8) = 0
              · have nsmp : ¬ smpValid mem t := fun hx => hx.2.2 hcpu
                rw [if_neg hsz, if_pos hcpu, if_neg nmm, if_neg nfb,
                  if_neg ncmd, if_neg nacpi, if_neg nsmp, if_neg nird,
                  if_neg nbl]
              · have hsmp : smpValid mem t := ⟨h6, by omega, hcpu⟩
                rw [if_neg hsz, if_neg hcpu, if_neg nmm, if_neg nfb,
                  if_neg ncmd, if_neg nacpi, if_pos hsmp]
          · have nsmp : ¬ smpValid mem t := fun hx => h6 hx.1
            rw [if_neg h6]
            by_cases h11 : tagType mem t = 11
            · have nbl : ¬ blValid mem t := fun hx => by have := hx.1; omega
              rw [if_pos h11]
              by_cases hsz : tagSize mem t < 24
              · have nird : ¬ initrdValid mem t := fun hx => by
                  have := hx.2.1; omega
                rw [if_pos hsz, if_neg nmm, if_neg nfb, if_neg ncmd,
                  if_neg nacpi, if_neg nsmp, if_neg nird, if_neg nbl]
              · by_cases hse : readU64 mem (t + 8) = 0 ∨
                    readU64 mem (t + 16) = 0
                · have nird : ¬ initrdValid mem t := fun hx => by
                    rcases hse with h | h
                    exacts [hx.2.2.1 h, hx.2.2.2 h]
                  rw [if_neg hsz, if_pos hse, if_neg nmm, if_neg nfb,
                    if_neg ncmd, if_neg nacpi, if_neg nsmp, if_neg nird,
                    if_neg nbl]
                · have hird : initrdValid mem t :=
                    ⟨h11, by omega, fun h => hse (Or.inl h),
                      fun h => hse (Or.inr h)⟩
                  rw [if_neg hsz, if_neg hse, if_neg nmm, if_neg nfb,
                    if_neg ncmd, if_neg nacpi, if_neg nsmp, if_pos hird]
            · have nird : ¬ initrdValid mem t := fun hx => h11 hx.1
              rw [if_neg h11]
              by_cases h8 : tagType mem t = 8
              · rw [if_pos h8]
                by_cases hsz : tagSize mem t ≤ 8
                · have nbl : ¬ blValid mem t := fun hx => by
                    have := hx.2.1; omega
                  rw [if_pos hsz, if_neg nmm, if_neg nfb, if_neg ncmd,
                    if_neg nacpi, if_neg nsmp, if_neg nird, if_neg nbl]
                · by_cases hnb : hasNullByte mem (t + 8)
                      (tagSize mem t - 8) = true
                  · have hbl : blValid mem t := ⟨h8, by omega, hnb⟩
                    rw [if_neg hsz, if_pos hnb, if_neg nmm, if_neg nfb,
                      if_neg ncmd, if_neg nacpi, if_neg nsmp, if_neg nird,
                      if_pos hbl]
                  · have nbl : ¬ blValid mem t := fun hx => hnb hx.2.2
                    rw [if_neg hsz, if_neg hnb, if_neg nmm, if_neg nfb,
                      if_neg ncmd, if_neg nacpi, if_neg nsmp, if_neg nird,
                      if_neg nbl]
              · have nbl : ¬ blValid mem t := fun hx => h8 hx.1
                rw [if_neg h8, if_neg nmm, if_neg nfb, if_neg ncmd,
                  if_neg nacpi, if_neg nsmp, if_neg nird, if_neg nbl]

/-! ### How one switch iteration updates each result field -/
theorem processTag_memory_map (mem : Blob) (acc : Parsed) (t : Nat) :
    (processTag mem acc t).memory_map =
      if mmapValid mem t then some t else acc.memory_map := by
  rw [processTag_eq]
  by_cases h : mmapValid mem t
  · rw [if_pos h, if_pos h]
  · rw [if_neg h, if_neg h]
    split_ifs <;> rfl

theorem processTag_has_memory_map (mem : Blob) (acc : Parsed) (t : Nat) :
    (processTag mem acc t).has_memory_map =
      if mmapValid mem t then true else acc.has_memory_map := by
  rw [processTag_eq]
  by_cases h : mmapValid mem t
  · rw [if_pos h, if_pos h]
  · rw [if_neg h, if_neg h]
    split_ifs <;> rfl

theorem processTag_mb (mem : Blob) (acc : Parsed) (t : Nat) :
    (processTag mem acc t).total_usable_memory_mb =
      if mmapValid mem t then mmapMB mem t
      else acc.total_usable_memory_mb := by
  rw [processTag_eq]
  by_cases h : mmapValid mem t
  · rw [if_pos h, if_pos h]
  · rw [if_neg h, if_neg h]
    split_ifs <;> rfl

theorem processTag_framebuffer (mem : Blob) (acc : Parsed) (t : Nat) :
    (processTag mem acc t).framebuffer =
      if fbValid mem t then some t else acc.framebuffer := by
  rw [processTag_eq]
  by_cases h : fbValid mem t
  · have nmm : ¬ mmapValid mem t := fun hx => by
      have := hx.1; have := h.1; omega
    rw [if_neg nmm, if_pos h, if_pos h]
  · rw [if_neg h, if_neg h]
    split_ifs <;> rfl

theorem processTag_has_framebuffer (mem : Blob) (acc : Parsed) (t : Nat) :
    (processTag mem acc t).has_framebuffer =
      if fbValid mem t then true else acc.has_framebuffer := by
  rw [processTag_eq]
  by_cases h : fbValid mem t
  · have nmm : ¬ mmapValid mem t := fun hx => by
      have := hx.1; have := h.1; omega
    rw [if_neg nmm, if_pos h, if_pos h]
  · rw [if_neg h, if_neg h]
    split_ifs <;> rfl

theorem processTag_cmdline (mem : Blob) (acc : Parsed) (t : Nat) :
    (processTag mem acc t).cmdline =
      if cmdValid mem t then some t else acc.cmdline := by
  rw [processTag_eq]
  by_cases h : cmdValid mem t
  · have nmm : ¬ mmapValid mem t := fun hx => by
      have := hx.1; have := h.1; omega
    have nfb : ¬ fbValid mem t := fun hx => by
      have := hx.1; have := h.1; omega
    rw [if_neg nmm, if_neg nfb, if_pos h, if_pos h]
  · rw [if_neg h, if_neg h]
    split_ifs <;> rfl

theorem processTag_has_cmdline (mem : Blob) (acc : Parsed) (t : Nat) :
    (processTag mem acc t).has_cmdline =
      if cmdValid mem t then true else acc.has_cmdline := by
  rw [processTag_eq]
  by_cases h : cmdValid mem t
  · have nmm : ¬ mmapValid mem t := fun hx => by
      have := hx.1; have := h.1; omega
    have nfb : ¬ fbValid mem t := fun hx => by
      have := hx.1; have := h.1; omega
    rw [if_neg nmm, if_neg nfb, if_pos h, if_pos h]
  · rw [if_neg h, if_neg h]
    split_ifs <;> rfl

theorem processTag_acpi (mem : Blob) (acc : Parsed) (t : Nat) :
    (processTag mem acc t).acpi_rsdp =
      if acpiValid mem t then some t else acc.acpi_rsdp := by
  rw [processTag_eq]
  by_cases h : acpiValid mem t
  · have nmm : ¬ mmapValid mem t := fun hx => by
      have := hx.1; have := h.1; omega
    have nfb : ¬ fbValid mem t := fun hx => by
      have := hx.1; have := h.1; omega
    have ncmd : ¬ cmdValid mem t := fun hx => by
      have := hx.1; have := h.1; omega
    rw [if_neg nmm, if_neg nfb, if_neg ncmd, if_pos h, if_pos h]
  · rw [if_neg h, if_neg h]
    split_ifs <;> rfl

theorem processTag_has_acpi (mem : Blob) (acc : Parsed) (t : Nat) :
    (processTag mem acc t).has_acpi =
      if acpiValid mem t then true else acc.has_acpi := by
  rw [processTag_eq]
  by_cases h : acpiValid mem t
  · have nmm : ¬ mmapValid mem t := fun hx => by
      have := hx.1; have := h.1; omega
    have nfb : ¬ fbValid mem t := fun hx => by
      have := hx.1; have := h.1; omega
    have ncmd : ¬ cmdValid mem t := fun hx => by
      have := hx.1; have := h.1; omega
    rw [if_neg nmm, if_neg nfb, if_neg ncmd, if_pos h, if_pos h]
  · rw [if_neg h, if_neg h]
    split_ifs <;> rfl

theorem processTag_smp (mem : Blob) (acc : Parsed) (t : Nat) :
    (processTag mem acc t).smp =
      if smpValid mem t then some t else acc.smp := by
  rw [processTag_eq]
  by_cases h : smpValid mem t
  · have nmm : ¬ mmapValid mem t := fun hx => by
      have := hx.1; have := h.1; omega
    have nfb : ¬ fbValid mem t := fun hx => by
      have := hx.1; have := h.1; omega
    have ncmd : ¬ cmdValid mem t := fun hx => by
      have := hx.1; have := h.1; omega
    have nacpi : ¬ acpiValid mem t := fun hx => by
      have := hx.1; have := h.1; omega
    rw [if_neg nmm, if_neg nfb, if_neg ncmd, if_neg nacpi, if_pos h,
      if_pos h]
  · rw [if_neg h, if_neg h]
    split_ifs <;> rfl

theorem processTag_has_smp (mem : Blob) (acc : Parsed) (t : Nat) :
    (processTag mem acc t).has_smp =
      if smpValid mem t then true else acc.has_smp := by
  rw [processTag_eq]
  by_cases h : smpValid mem t
  · have nmm : ¬ mmapValid mem t := fun hx => by
      have := hx.1; have := h.1; omega
    have nfb : ¬ fbValid mem t := fun hx => by
      have := hx.1; have := h.1; omega
    have ncmd : ¬ cmdValid mem t := fun hx => by
      have := hx.1; have := h.1; omega
    have nacpi : ¬ acpiValid mem t := fun hx => by
      have := hx.1; have := h.1; omega
    rw [if_neg nmm, if_neg nfb, if_neg ncmd, if_neg nacpi, if_pos h,
      if_pos h]
  · rw [if_neg h, if_neg h]
    split_ifs <;> rfl

theorem processTag_cpu_count (mem : Blob) (acc : Parsed) (t : Nat) :
    (processTag mem acc t).cpu_count =
      if smpValid mem t then readU32 mem (t + 8) else acc.cpu_count := by
  rw [processTag_eq]
  by_cases h : smpValid mem t
  · have nmm : ¬ mmapValid mem t := fun hx => by
      have := hx.1; have := h.1; omega
    have nfb : ¬ fbValid mem t := fun hx => by
      have := hx.1; have := h.1; omega
    have ncmd : ¬ cmdValid mem t := fun hx => by
      have := hx.1; have := h.1; omega
    have nacpi : ¬ acpiValid mem t := fun hx => by
      have := hx.1; have := h.1; omega
    rw [if_neg nmm, if_neg nfb, if_neg ncmd, if_neg nacpi, if_pos h,
      if_pos h]
  · rw [if_neg h, if_neg h]
    split_ifs <;> rfl

theorem processTag_initrd (mem : Blob) (acc : Parsed) (t : Nat) :
    (processTag mem acc t).initrd =
      if initrdValid mem t then some t else acc.initrd := by
  rw [processTag_eq]
  by_cases h : initrdValid mem t
  · have nmm : ¬ mmapValid mem t := fun hx => by
      have := hx.1; have := h.1; omega
    have nfb : ¬ fbValid mem t := fun hx => by
      have := hx.1; have := h.1; omega
    have ncmd : ¬ cmdValid mem t := fun hx => by
      have := hx.1; have := h.1; omega
    have nacpi : ¬ acpiValid mem t := fun hx => by
      have := hx.1; have := h.1; omega
    have nsmp : ¬ smpValid mem t := fun hx => by
      have := hx.1; have := h.1; omega
    rw [if_neg nmm, if_neg nfb, if_neg ncmd, if_neg nacpi, if_neg nsmp,
      if_pos h, if_pos h]
  · rw [if_neg h, if_neg h]
    split_ifs <;> rfl

theorem processTag_has_initrd (mem : Blob) (acc : Parsed) (t : Nat) :
    (processTag mem acc t).has_initrd =
      if initrdValid mem t then true else acc.has_initrd := by
  rw [processTag_eq]
  by_cases h : initrdValid mem t
  · have nmm : ¬ mmapValid mem t := fun hx => by
      have := hx.1; have := h.1; omega
    have nfb : ¬ fbValid mem t := fun hx => by
      have := hx.1; have := h.1; omega
    have ncmd : ¬ cmdValid mem t := fun hx => by
      have := hx.1; have := h.1; omega
    have nacpi : ¬ acpiValid mem t := fun hx => by
      have := hx.1; have := h.1; omega
    have nsmp : ¬ smpValid mem t := fun hx => by
      have := hx.1; have := h.1; omega
    rw [if_neg nmm, if_neg nfb, if_neg ncmd, if_neg nacpi, if_neg nsmp,
      if_pos h, if_pos h]
  · rw [if_neg h, if_neg h]
    split_ifs <;> rfl

theorem processTag_bootloader (mem : Blob) (acc : Parsed) (t : Nat) :
    (processTag mem acc t).bootloader =
      if blValid mem t then some t else acc.bootloader := by
  rw [processTag_eq]
  by_cases h : blValid mem t
  · have nmm : ¬ mmapValid mem t := fun hx => by
      have := hx.1; have := h.1; omega
    have nfb : ¬ fbValid mem t := fun hx => by
      have := hx.1; have := h.1; omega
    have ncmd : ¬ cmdValid mem t := fun hx => by
      have := hx.1; have := h.1; omega
    have nacpi : ¬ acpiValid mem t := fun hx => by
      have := hx.1; have := h.1; omega
    have nsmp : ¬ smpValid mem t := fun hx => by
      have := hx.1; have := h.1; omega
    have nird : ¬ initrdValid mem t := fun hx => by
      have := hx.1; have := h.1; omega
    rw [if_neg nmm, if_neg nfb, if_neg ncmd, if_neg nacpi, if_neg nsmp,
      if_neg nird, if_pos h, if_pos h]
  · rw [if_neg h, if_neg h]
    split_ifs <;> rfl

/-! ### The parse loop as a fold over the enumerated tag chain -/
theorem chain_ne_nil (mem : Blob) (tag : Option Nat) (fuel : Nat)
    (L : List Nat) (h : chainToEnd mem tag fuel = some L) : L ≠ [] := by
  cases fuel with
  | zero => simp [chainToEnd] at h
  | succ f =>
      simp only [chainToEnd] at h
      cases hc : boot_info_get_next_tag mem tag with
      | none => rw [hc] at h; simp at h
      | some t =>
          rw [hc] at h
          simp only at h
          split at h
          · simp only [Option.some.injEq] at h
            subst h
            simp
          · cases hch : chainToEnd mem (some t) f with
            | none => rw [hch] at h; simp at h
            | some L1 =>
                rw [hch] at h
                simp only [Option.map_some', Option.some.injEq] at h
                subst h
                simp

theorem parseLoop_eq_fold (mem : Blob) :
    ∀ (fuel : Nat) (tag : Option Nat) (count : Nat) (acc : Parsed)
      (L : List Nat),
      chainToEnd mem tag fuel = some L → count + L.length ≤ 1000 →
      parseLoop mem acc tag count fuel =
        ((L.dropLast.foldl (processTag mem) acc).has_memory_map,
         L.dropLast.foldl (processTag mem) acc) := by
  intro fuel
  induction fuel with
  | zero => intro tag count acc L h _; simp [chainToEnd] at h
  | succ f ih =>
      intro tag count acc L h hcap
      simp only [chainToEnd] at h
      simp only [parseLoop]
      cases hc : boot_info_get_next_tag mem tag with
      | none => rw [hc] at h; simp at h
      | some t =>
          rw [hc] at h
          simp only at h
          dsimp only
          by_cases hend : tagType mem t = 0
          · rw [if_pos hend] at h
            simp only [Option.some.injEq] at h
            subst h
            simp only [List.length_cons, List.length_nil] at hcap
            rw [if_neg (by omega : ¬ count + 1 > 1000), if_pos hend]
            simp [List.dropLast]
          · rw [if_neg hend] at h
            cases hch : chainToEnd mem (some t) f with
            | none => rw [hch] at h; simp at h
            | some L1 =>
                rw [hch] at h
                simp only [Option.map_some', Option.some.injEq] at h
                subst h
                simp only [List.length_cons] at hcap
                rw [if_neg (by omega : ¬ count + 1 > 1000), if_neg hend]
                rw [ih (some t) (count + 1) (processTag mem acc t) L1 hch
                  (by omega)]
                have hne : L1 ≠ [] := chain_ne_nil mem (some t) f L1 hch
                rw [List.dropLast_cons_of_ne_nil hne, List.foldl_cons]

theorem parse_eq_fold (mem : Blob) (p0 : Parsed) (L : List Nat)
    (hv : validateBlob mem = true)
    (hch : chainToEnd mem none 1001 = some L) (hlen : L.length ≤ 1000) :
    boot_info_parse mem p0 =
      ((L.dropLast.foldl (processTag mem) initParsed).has_memory_map,
       L.dropLast.foldl (processTag mem) initParsed) := by
  unfold boot_info_parse
  rw [hv, if_pos rfl]
  exact parseLoop_eq_fold mem 1001 none 0 initParsed L hch (by omega)

theorem foldl_field {β : Type} (mem : Blob) (σ : Parsed → β)
    (v : Nat → Prop) [DecidablePred v] (f : Nat → β)
    (hσ : ∀ acc t, σ (processTag mem acc t) = if v t then f t else σ acc) :
    ∀ (P : List Nat) (acc : Parsed),
      σ (P.foldl (processTag mem) acc) =
        P.foldl (fun x t => if v t then f t else x) (σ acc) := by
  intro P
  induction P with
  | nil => intro acc; rfl
  | cons t P ih =>
      intro acc
      rw [List.foldl_cons, List.foldl_cons, ih, hσ]

theorem foldl_step_lastRec {β : Type} (v : Nat → Prop) [DecidablePred v]
    (f : Nat → β) (d : β) :
    ∀ (P : List Nat) (a : Option Nat),
      P.foldl (fun x t => if v t then f t else x)
        (match a with | some u => f u | none => d) =
      (match P.foldl (fun x t => if v t then some t else x) a with
       | some u => f u
       | none => d) := by
  intro P
  induction P with
  | nil => intro a; rfl
  | cons t P ih =>
      intro a
      rw [List.foldl_cons, List.foldl_cons]
      by_cases h : v t
      · rw [if_pos h, if_pos h]
        exact ih (some t)
      · rw [if_neg h, if_neg h]
        exact ih a

theorem option_match_isSome (o : Option Nat) :
    (match o with | some _ => true | none => false) = o.isSome := by
  cases o <;> rfl

/-! ### Claim C10: the last valid occurrence of each kind wins -/

/-- Claim C10 — for every blob whose header validates and whose cursor
chain reaches an End tag within the 1000-tag cap, the result of
`boot_info_parse` records, for each recognized kind, exactly the last
individually valid occurrence among the tags processed before the End tag
(so earlier valid occurrences are absent), and the derived scalars
`total_usable_memory_mb` and `cpu_count` are the ones recomputed from those
last valid MemoryMap and Smp tags (with defaults 0 and 1 when absent). -/
theorem parse_records_last_valid (mem : Blob) (p0 : Parsed) (L : List Nat)
    (hv : validateBlob mem = true)
    (hch : chainToEnd mem none 1001 = some L) (hlen : L.length ≤ 1000) :
    (boot_info_parse mem p0).2.memory_map =
        lastRec (mmapValid mem) L.dropLast ∧
    (boot_info_parse mem p0).2.framebuffer =
        lastRec (fbValid mem) L.dropLast ∧
    (boot_info_parse mem p0).2.cmdline =
        lastRec (cmdValid mem) L.dropLast ∧
    (boot_info_parse mem p0).2.acpi_rsdp =
        lastRec (acpiValid mem) L.dropLast ∧
    (boot_info_parse mem p0).2.smp =
        lastRec (smpValid mem) L.dropLast ∧
    (boot_info_parse mem p0).2.initrd =
        lastRec (initrdValid mem) L.dropLast ∧
    (boot_info_parse mem p0).2.bootloader =
        lastRec (blValid mem) L.dropLast ∧
    (boot_info_parse mem p0).2.has_memory_map =
        (lastRec (mmapValid mem) L.dropLast).isSome ∧
    (boot_info_parse mem p0).2.has_framebuffer =
        (lastRec (fbValid mem) L.dropLast).isSome ∧
    (boot_info_parse mem p0).2.has_cmdline =
        (lastRec (cmdValid mem) L.dropLast).isSome ∧
    (boot_info_parse mem p0).2.has_acpi =
        (lastRec (acpiValid mem) L.dropLast).isSome ∧
    (boot_info_parse mem p0).2.has_smp =
        (lastRec (smpValid mem) L.dropLast).isSome ∧
    (boot_info_parse mem p0).2.has_initrd =
        (lastRec (initrdValid mem) L.dropLast).isSome ∧
    (boot_info_parse mem p0).2.total_usable_memory_mb =
        (match lastRec (mmapValid mem) L.dropLast with
         | some u => mmapMB mem u
         | none => 0) ∧
    (boot_info_parse mem p0).2.cpu_count =
        (match lastRec (smpValid mem) L.dropLast with
         | some u => readU32 mem (u + 8)
         | none => 1) := by
  rw [parse_eq_fold mem p0 L hv hch hlen]
  refine ⟨?_, ?_, ?_, ?_, ?_, ?_, ?_, ?_, ?_, ?_, ?_, ?_, ?_, ?_, ?_⟩
  · exact foldl_field mem Parsed.memory_map (mmapValid mem) some
      (processTag_memory_map mem) L.dropLast initParsed
  · exact foldl_field mem Parsed.framebuffer (fbValid mem) some
      (processTag_framebuffer mem) L.dropLast initParsed
  · exact foldl_field mem Parsed.cmdline (cmdValid mem) some
      (processTag_cmdline mem) L.dropLast initParsed
  · exact foldl_field mem Parsed.acpi_rsdp (acpiValid mem) some
      (processTag_acpi mem) L.dropLast initParsed
  · exact foldl_field mem Parsed.smp (smpValid mem) some
      (processTag_smp mem) L.dropLast initParsed
  · exact foldl_field mem Parsed.initrd (initrdValid mem) some
      (processTag_initrd mem) L.dropLast initParsed
  · exact foldl_field mem Parsed.bootloader (blValid mem) some
      (processTag_bootloader mem) L.dropLast initParsed
  · rw [foldl_field mem Parsed.has_memory_map (mmapValid mem)
      (fun _ => true) (processTag_has_memory_map mem) L.dropLast initParsed,
      ← option_match_isSome]
    exact foldl_step_lastRec (mmapValid mem) (fun _ => true) false
      L.dropLast none
  · rw [foldl_field mem Parsed.has_framebuffer (fbValid mem)
      (fun _ => true) (processTag_has_framebuffer mem) L.dropLast initParsed,
      ← option_match_isSome]
    exact foldl_step_lastRec (fbValid mem) (fun _ => true) false
      L.dropLast none
  · rw [foldl_field mem Parsed.has_cmdline (cmdValid mem)
      (fun _ => true) (processTag_has_cmdline mem) L.dropLast initParsed,
      ← option_match_isSome]
    exact foldl_step_lastRec (cmdValid mem) (fun _ => true) false
      L.dropLast none
  · rw [foldl_field mem Parsed.has_acpi (acpiValid mem)
      (fun _ => true) (processTag_has_acpi mem) L.dropLast initParsed,
      ← option_match_isSome]
    exact foldl_step_lastRec (acpiValid mem) (fun _ => true) false
      L.dropLast none
  · rw [foldl_field mem Parsed.has_smp (smpValid mem)
      (fun _ => true) (processTag_has_smp mem) L.dropLast initParsed,
      ← option_match_isSome]
    exact foldl_step_lastRec (smpValid mem) (fun _ => true) false
      L.dropLast none
  · rw [foldl_field mem Parsed.has_initrd (initrdValid mem)
      (fun _ => true) (processTag_has_initrd mem) L.dropLast initParsed,
      ← option_match_isSome]
    exact foldl_step_lastRec (initrdValid mem) (fun _ => true) false
      L.dropLast none
  · rw [foldl_field mem Parsed.total_usable_memory_mb (mmapValid mem)
      (mmapMB mem) (processTag_mb mem) L.dropLast initParsed]
    exact foldl_step_lastRec (mmapValid mem) (mmapMB mem) 0
      L.dropLast none
  · rw [foldl_field mem Parsed.cpu_count (smpValid mem)
      (fun u => readU32 mem (u + 8)) (processTag_cpu_count mem)
      L.dropLast initParsed]
    exact foldl_step_lastRec (smpValid mem) (fun u => readU32 mem (u + 8)) 1
      L.dropLast none

/-- Witness for C10: on a blob with two valid MemoryMap tags, the recorded
pointer is the last valid occurrence (offset 32, not 16). -/
theorem parse_records_last_valid_witness :
    (boot_info_parse c10mem initParsed).2.memory_map =
      lastRec (mmapValid c10mem) ([16, 32, 48] : List Nat).dropLast ∧
    lastRec (mmapValid c10mem) ([16, 32, 48] : List Nat).dropLast =
      some 32 :=
  ⟨(parse_records_last_valid c10mem initParsed [16, 32, 48] (by decide)
      (by decide) (by decide)).1,
   by decide⟩

/-! ### Claim C9 amended: the MB scalar tracks the recorded tag -/
theorem processTag_mbInv (mem : Blob) (acc : Parsed) (t : Nat)
    (h : ∀ off, acc.memory_map = some off →
      acc.total_usable_memory_mb = mmapMB mem off) :
    ∀ off, (processTag mem acc t).memory_map = some off →
      (processTag mem acc t).total_usable_memory_mb = mmapMB mem off := by
  intro off hoff
  rw [processTag_memory_map] at hoff
  rw [processTag_mb]
  by_cases hv : mmapValid mem t
  · rw [if_pos hv] at hoff
    rw [if_pos hv]
    injection hoff with he
    rw [he]
  · rw [if_neg hv] at hoff
    rw [if_neg hv]
    exact h off hoff

theorem parseLoop_mbInv (mem : Blob) :
    ∀ (fuel : Nat) (tag : Option Nat) (count : Nat) (acc : Parsed),
      (∀ off, acc.memory_map = some off →
        acc.total_usable_memory_mb = mmapMB mem off) →
      ∀ off, (parseLoop mem acc tag count fuel).2.memory_map = some off →
        (parseLoop mem acc tag count fuel).2.total_usable_memory_mb =
          mmapMB mem off := by
  intro fuel
  induction fuel with
  | zero => intro tag count acc h; simpa [parseLoop] using h
  | succ f ih =>
      intro tag count acc h
      simp only [parseLoop]
      cases boot_info_get_next_tag mem tag with
      | none => exact h
      | some t =>
          dsimp only
          by_cases hcap : count + 1 > 1000
          · rw [if_pos hcap]; exact h
          · rw [if_neg hcap]
            by_cases hend : tagType mem t = 0
            · rw [if_pos hend]; exact h
            · rw [if_neg hend]
              exact ih (some t) (count + 1) (processTag mem acc t)
                (processTag_mbInv mem acc t h)

/-- Claim C9 amended — whenever `boot_info_parse` succeeds with a recorded
MemoryMap tag at offset `off`, the result's `total_usable_memory_mb` equals
`(T / 1048576) mod 2^32`, where `T = usableTotal mem off` is the running
u64 total over entries at u32-wrapped byte offsets `(i * entry_size) mod
2^32`, accumulated with overflow-checked additions that keep the prior
total on overflow.  (The claim as written omitted both `mod 2^32`
truncations.) -/
theorem mb_of_recorded_memory_map (mem : Blob) (p0 : Parsed) (off : Nat)
    (h1 : (boot_info_parse mem p0).1 = true)
    (h2 : (boot_info_parse mem p0).2.memory_map = some off) :
    (boot_info_parse mem p0).2.total_usable_memory_mb =
      usableTotal mem off / 1048576 % 4294967296 := by
  by_cases hv : validateBlob mem
  · unfold boot_info_parse at h2 ⊢
    rw [hv, if_pos rfl] at h2 ⊢
    exact parseLoop_mbInv mem 1001 none 0 initParsed
      (by intro o ho; simp [initParsed] at ho) off h2
  · have hvf : validateBlob mem = false := by
      revert hv; cases validateBlob mem <;> simp
    unfold boot_info_parse at h1
    rw [hvf] at h1
    simp at h1

/-- Witness for the amended C9 on the Scenario-A blob. -/
theorem mb_of_recorded_memory_map_witness :
    (boot_info_parse a64mem initParsed).2.total_usable_memory_mb =
      usableTotal a64mem 16 / 1048576 % 4294967296 :=
  mb_of_recorded_memory_map a64mem initParsed 16 (by decide) (by decide)

/-! ### Claim C5: exactly when the parse fails -/
theorem parseLoop_false_iff (mem : Blob) :
    ∀ (fuel count : Nat) (acc : Parsed) (tag : Option Nat),
      count + fuel = 1001 →
      ((parseLoop mem acc tag count fuel).1 = false ↔
        (chainToEnd mem tag fuel = none ∨
         ∃ L, chainToEnd mem tag fuel = some L ∧
           (1000 < count + L.length ∨
            (count + L.length ≤ 1000 ∧ acc.has_memory_map = false ∧
             ∀ t ∈ L, ¬ mmapValid mem t)))) := by
  intro fuel
  induction fuel with
  | zero =>
      intro count acc tag hcf
      simp [parseLoop, chainToEnd]
  | succ f ih =>
      intro count acc tag hcf
      simp only [parseLoop, chainToEnd]
      cases hc : boot_info_get_next_tag mem tag with
      | none => simp
      | some t =>
          dsimp only
          split_ifs with hcap hend hend
          · -- cap reached, End tag: the chain is [t] but the count blows up
            constructor
            · intro _
              refine Or.inr ⟨[t], rfl, Or.inl ?_⟩
              simp only [List.length_cons, List.length_nil]
              omega
            · intro _
              rfl
          · -- cap reached, non-End tag: here f = 0, so the chain is cut off
            have hf0 : f = 0 := by omega
            subst hf0
            simp [chainToEnd]
          · -- End tag within the cap
            have nmm : ¬ mmapValid mem t := fun hx => by have := hx.1; omega
            constructor
            · intro hf
              refine Or.inr ⟨[t], rfl, Or.inr ⟨?_, hf, ?_⟩⟩
              · simp only [List.length_cons, List.length_nil]
                omega
              · intro x hx
                rcases List.mem_cons.mp hx with rfl | hx
                · exact nmm
                · simp at hx
            · rintro (hnone | ⟨L, hL, hcase⟩)
              · exact absurd hnone (by simp)
              · injection hL with hLe
                subst hLe
                rcases hcase with hgt | ⟨_, hhs, _⟩
                · simp only [List.length_cons, List.length_nil] at hgt
                  omega
                · exact hhs
          · -- ordinary tag within the cap: recurse
            rw [ih (count + 1) (processTag mem acc t) (some t) (by omega)]
            cases hch : chainToEnd mem (some t) f with
            | none => simp
            | some L1 =>
                simp only [Option.map_some']
                constructor
                · rintro (h | ⟨L, hL, hcase⟩)
                  · exact absurd h (by simp)
                  · injection hL with hLe
                    subst hLe
                    refine Or.inr ⟨t :: L1, rfl, ?_⟩
                    rcases hcase with hgt | ⟨hle, hhs, hall⟩
                    · refine Or.inl ?_
                      simp only [List.length_cons]
                      omega
                    · rw [processTag_has_memory_map] at hhs
                      by_cases hmv : mmapValid mem t
                      · rw [if_pos hmv] at hhs
                        exact absurd hhs (by simp)
                      · rw [if_neg hmv] at hhs
                        refine Or.inr ⟨?_, hhs, ?_⟩
                        · simp only [List.length_cons]
                          omega
                        · intro x hx
                          rcases List.mem_cons.mp hx with rfl | hx
                          · exact hmv
                          · exact hall x hx
                · rintro (h | ⟨L, hL, hcase⟩)
                  · exact absurd h (by simp)
                  · injection hL with hLe
                    subst hLe
                    rcases hcase with hgt | ⟨hle, hhs, hall⟩
                    · refine Or.inr ⟨L1, rfl, Or.inl ?_⟩
                      simp only [List.length_cons] at hgt
                      omega
                    · have hnmv : ¬ mmapValid mem t :=
                        hall t (List.mem_cons_self t L1)
                      refine Or.inr ⟨L1, rfl, Or.inr ⟨?_, ?_, ?_⟩⟩
                      · simp only [List.length_cons] at hle
                        omega
                      · rw [processTag_has_memory_map, if_neg hnmv]
                        exact hhs
                      · exact fun x hx => hall x (List.mem_cons_of_mem t hx)

/-- Claim C5 — `boot_info_parse` fails exactly when the header fails
validation, or the cursor chain never reaches an End tag (within the cap's
horizon of 1001 enumerated tags), or the End tag only arrives as the 1001st
or later enumerated tag (so the 1000-tag cap aborts the parse before
processing it), or the chain terminates in time but contains no valid
MemoryMap tag (type 2, size at least 16 and entry_size at least 24).  In
every other case the parse succeeds with the completed result. -/
theorem parse_failure_iff (mem : Blob) (p0 : Parsed) :
    (boot_info_parse mem p0).1 = false ↔
      (validateBlob mem = false ∨
       chainToEnd mem none 1001 = none ∨
       (∃ L, chainToEnd mem none 1001 = some L ∧ 1000 < L.length) ∨
       (∃ L, chainToEnd mem none 1001 = some L ∧ L.length ≤ 1000 ∧
          ∀ t ∈ L, ¬ mmapValid mem t)) := by
  unfold boot_info_parse
  by_cases hv : validateBlob mem
  · rw [hv, if_pos rfl]
    rw [parseLoop_false_iff mem 1001 0 initParsed none (by omega)]
    constructor
    · rintro (hnone | ⟨L, hL, hcase⟩)
      · exact Or.inr (Or.inl hnone)
      · rcases hcase with hgt | ⟨hle, _, hall⟩
        · exact Or.inr (Or.inr (Or.inl ⟨L, hL, by omega⟩))
        · exact Or.inr (Or.inr (Or.inr ⟨L, hL, by omega, hall⟩))
    · rintro (hfv | hnone | ⟨L, hL, hgt⟩ | ⟨L, hL, hle, hall⟩)
      · exact absurd hfv (by simp)
      · exact Or.inl hnone
      · exact Or.inr ⟨L, hL, Or.inl (by omega)⟩
      · exact Or.inr ⟨L, hL, Or.inr ⟨by omega, rfl, hall⟩⟩
  · have hvf : validateBlob mem = false := by
      revert hv; cases validateBlob mem <;> simp
    simp [hvf]

/-- Claim C8 as stated is false of the code: with the otherwise-valid blob
`cap16MiBMem` (declared `total_size` exactly at the 16 MiB ceiling, one
valid MemoryMap tag, an End tag) the parse succeeds, but inserting one
well-formed unknown tag (`type = 0x8000`, `size = 8`, in bounds) with
`total_size` adjusted accordingly makes header validation reject the blob
(16 MiB + 8 exceeds the ceiling), so the parse fails. -/
theorem unknown_tag_insertion_changes_outcome :
    readU16 ins8blob 0 = 0x8000 ∧
    readU32 ins8blob 4 = 8 ∧
    (boot_info_parse cap16MiBMem initParsed).1 = true ∧
    (boot_info_parse (insertFront cap16MiBMem ins8blob 8) initParsed).1 =
      false := by
  refine ⟨by decide, by decide, by decide, by decide⟩

/-! #### Byte-level facts about insertFront -/
theorem validateBlob_true (mem : Blob) (h : validateBlob mem = true) :
    hdrMagic mem = 0x44424F4B ∧ 24 ≤ hdrTotalSize mem ∧
    hdrTotalSize mem ≤ 16777216 ∧ 1 ≤ hdrVersion mem ∧
    hdrReserved mem = 0 := by
  unfold validateBlob at h
  split_ifs at h with h1 h2 h3 h4 h5
  push_neg at h1 h2 h3 h4 h5
  exact ⟨h1, by omega, by omega, by omega, h5⟩

theorem insertFront_readU8_low (mem ins : Blob) (D o : Nat)
    (h : o < 4 ∨ (8 ≤ o ∧ o < 16)) :
    readU8 (insertFront mem ins D) o = readU8 mem o := by
  unfold readU8 insertFront
  rcases h with h | h
  · rw [if_pos h]
  · rw [if_neg (by omega), if_neg (by omega), if_neg (by omega),
      if_neg (by omega), if_neg (by omega), if_pos (by omega)]

theorem insertFront_readU8_shift (mem ins : Blob) (D o : Nat) (h : 16 ≤ o) :
    readU8 (insertFront mem ins D) (o + D) = readU8 mem o := by
  unfold readU8 insertFront
  rw [if_neg (by omega), if_neg (by omega), if_neg (by omega),
    if_neg (by omega), if_neg (by omega), if_neg (by omega),
    if_neg (by omega)]
  have he : o + D - D = o := by omega
  rw [he]

theorem insertFront_readU8_ins (mem ins : Blob) (D k : Nat) (h : k < D) :
    readU8 (insertFront mem ins D) (16 + k) = readU8 ins k := by
  unfold readU8 insertFront
  rw [if_neg (by omega), if_neg (by omega), if_neg (by omega),
    if_neg (by omega), if_neg (by omega), if_neg (by omega),
    if_pos (by omega)]
  have he : 16 + k - 16 = k := by omega
  rw [he]

theorem insertFront_hdrTotalSize (mem ins : Blob) (D : Nat)
    (h : hdrTotalSize mem + D < 4294967296) :
    hdrTotalSize (insertFront mem ins D) = hdrTotalSize mem + D := by
  have e4 : readU8 (insertFront mem ins D) 4 =
      (hdrTotalSize mem + D) % 256 := by
    unfold readU8 insertFront
    rw [if_neg (by omega), if_pos rfl]
    omega
  have e5 : readU8 (insertFront mem ins D) 5 =
      (hdrTotalSize mem + D) / 256 % 256 := by
    unfold readU8 insertFront
    rw [if_neg (by omega), if_neg (by omega), if_pos rfl]
    omega
  have e6 : readU8 (insertFront mem ins D) 6 =
      (hdrTotalSize mem + D) / 65536 % 256 := by
    unfold readU8 insertFront
    rw [if_neg (by omega), if_neg (by omega), if_neg (by omega), if_pos rfl]
    omega
  have e7 : readU8 (insertFront mem ins D) 7 =
      (hdrTotalSize mem + D) / 16777216 % 256 := by
    unfold readU8 insertFront
    rw [if_neg (by omega), if_neg (by omega), if_neg (by omega),
      if_neg (by omega), if_pos rfl]
    omega
  have lhs : hdrTotalSize (insertFront mem ins D) =
      readU8 (insertFront mem ins D) 4 +
      256 * readU8 (insertFront mem ins D) 5 +
      65536 * (readU8 (insertFront mem ins D) 6 +
        256 * readU8 (insertFront mem ins D) 7) := rfl
  rw [lhs, e4, e5, e6, e7]
  omega

theorem insertFront_hdrMagic (mem ins : Blob) (D : Nat) :
    hdrMagic (insertFront mem ins D) = hdrMagic mem := by
  unfold hdrMagic readU32 readU16
  rw [insertFront_readU8_low mem ins D 0 (by omega),
    insertFront_readU8_low mem ins D 1 (by omega),
    insertFront_readU8_low mem ins D 2 (by omega),
    insertFront_readU8_low mem ins D 3 (by omega)]

theorem insertFront_hdrVersion (mem ins : Blob) (D : Nat) :
    hdrVersion (insertFront mem ins D) = hdrVersion mem := by
  unfold hdrVersion readU32 readU16
  rw [insertFront_readU8_low mem ins D 8 (by omega),
    insertFront_readU8_low mem ins D 9 (by omega),
    insertFront_readU8_low mem ins D 10 (by omega),
    insertFront_readU8_low mem ins D 11 (by omega)]

theorem insertFront_hdrReserved (mem ins : Blob) (D : Nat) :
    hdrReserved (insertFront mem ins D) = hdrReserved mem := by
  unfold hdrReserved readU32 readU16
  rw [insertFront_readU8_low mem ins D 12 (by omega),
    insertFront_readU8_low mem ins D 13 (by omega),
    insertFront_readU8_low mem ins D 14 (by omega),
    insertFront_readU8_low mem ins D 15 (by omega)]

theorem insertFront_validate (mem ins : Blob) (D : Nat)
    (hv : validateBlob mem = true)
    (hts : hdrTotalSize mem + D ≤ 16777216) :
    validateBlob (insertFront mem ins D) = true := by
  obtain ⟨h1, h2, h3, h4, h5⟩ := validateBlob_true mem hv
  unfold validateBlob
  rw [insertFront_hdrMagic, insertFront_hdrVersion, insertFront_hdrReserved,
    insertFront_hdrTotalSize mem ins D (by omega)]
  rw [if_neg (by omega), if_neg (by omega), if_neg (by omega),
    if_neg (by omega), if_neg (by omega)]

theorem insertFront_readU16_shift (mem ins : Blob) (D o : Nat)
    (h : 16 ≤ o) :
    readU16 (insertFront mem ins D) (o + D) = readU16 mem o := by
  unfold readU16
  have he : o + D + 1 = (o + 1) + D := by omega
  rw [insertFront_readU8_shift mem ins D o h, he,
    insertFront_readU8_shift mem ins D (o + 1) (by omega)]

theorem insertFront_readU32_shift (mem ins : Blob) (D o : Nat)
    (h : 16 ≤ o) :
    readU32 (insertFront mem ins D) (o + D) = readU32 mem o := by
  unfold readU32
  have he : o + D + 2 = (o + 2) + D := by omega
  rw [insertFront_readU16_shift mem ins D o h, he,
    insertFront_readU16_shift mem ins D (o + 2) (by omega)]

theorem insertFront_readU64_shift (mem ins : Blob) (D o : Nat)
    (h : 16 ≤ o) :
    readU64 (insertFront mem ins D) (o + D) = readU64 mem o := by
  unfold readU64
  have he : o + D + 4 = (o + 4) + D := by omega
  rw [insertFront_readU32_shift mem ins D o h, he,
    insertFront_readU32_shift mem ins D (o + 4) (by omega)]

theorem insertFront_tagType_shift (mem ins : Blob) (D t : Nat)
    (h : 16 ≤ t) :
    tagType (insertFront mem ins D) (t + D) = tagType mem t :=
  insertFront_readU16_shift mem ins D t h

theorem insertFront_tagSize_shift (mem ins : Blob) (D t : Nat)
    (h : 16 ≤ t) :
    tagSize (insertFront mem ins D) (t + D) = tagSize mem t := by
  unfold tagSize
  have he : t + D + 4 = (t + 4) + D := by omega
  rw [he, insertFront_readU32_shift mem ins D (t + 4) (by omega)]

theorem insertFront_tagType_ins (mem ins : Blob) (D : Nat) (h : 1 < D) :
    tagType (insertFront mem ins D) 16 = readU16 ins 0 := by
  unfold tagType readU16
  have e0 := insertFront_readU8_ins mem ins D 0 (by omega)
  have e1 := insertFront_readU8_ins mem ins D 1 (by omega)
  norm_num at e0 e1
  rw [e0, e1]

theorem insertFront_tagSize_ins (mem ins : Blob) (D : Nat) (h : 7 < D) :
    tagSize (insertFront mem ins D) 16 = readU32 ins 4 := by
  unfold tagSize readU32 readU16
  have e4 := insertFront_readU8_ins mem ins D 4 (by omega)
  have e5 := insertFront_readU8_ins mem ins D 5 (by omega)
  have e6 := insertFront_readU8_ins mem ins D 6 (by omega)
  have e7 := insertFront_readU8_ins mem ins D 7 (by omega)
  norm_num at e4 e5 e6 e7
  rw [e4, e5, e6, e7]

/-! #### Cursor and chain under front insertion -/
theorem cursor_pos_ge (mem : Blob) (t p : Nat) (ht : 16 ≤ t)
    (h : boot_info_get_next_tag mem (some t) = some p) : 16 ≤ p := by
  simp only [boot_info_get_next_tag] at h
  split_ifs at h
  injection h with he
  omega

theorem chain_mem_ge16 (mem : Blob) :
    ∀ (fuel : Nat) (tag : Option Nat) (L : List Nat),
      (∀ q, tag = some q → 16 ≤ q) → chainToEnd mem tag fuel = some L →
      ∀ x ∈ L, 16 ≤ x := by
  intro fuel
  induction fuel with
  | zero => intro tag L _ h; simp [chainToEnd] at h
  | succ f ih =>
      intro tag L hq h
      simp only [chainToEnd] at h
      cases hc : boot_info_get_next_tag mem tag with
      | none => rw [hc] at h; simp at h
      | some t =>
          rw [hc] at h
          dsimp only at h
          have ht : 16 ≤ t := by
            cases tag with
            | none =>
                have h16 : t = 16 := by
                  simp only [boot_info_get_next_tag] at hc
                  split_ifs at hc
                  injection hc with he
                  omega
                omega
            | some q => exact cursor_pos_ge mem q t (hq q rfl) hc
          by_cases hend : tagType mem t = 0
          · rw [if_pos hend] at h
            simp only [Option.some.injEq] at h
            subst h
            intro x hx
            simp only [List.mem_singleton] at hx
            subst hx
            exact ht
          · rw [if_neg hend] at h
            cases hch : chainToEnd mem (some t) f with
            | none => rw [hch] at h; simp at h
            | some L1 =>
                rw [hch] at h
                simp only [Option.map_some', Option.some.injEq] at h
                subst h
                intro x hx
                rcases List.mem_cons.mp hx with rfl | hx
                · exact ht
                · exact ih (some t) L1
                    (by intro q hq'; injection hq' with he; omega) hch x hx

theorem chain_fuel_adequate (mem : Blob) :
    ∀ (f : Nat) (tag : Option Nat) (L : List Nat),
      chainToEnd mem tag f = some L →
      ∀ f', L.length ≤ f' → chainToEnd mem tag f' = some L := by
  intro f
  induction f with
  | zero => intro tag L h; simp [chainToEnd] at h
  | succ f ih =>
      intro tag L h f' hlen
      simp only [chainToEnd] at h
      cases hc : boot_info_get_next_tag mem tag with
      | none => rw [hc] at h; simp at h
      | some t =>
          rw [hc] at h
          dsimp only at h
          by_cases hend : tagType mem t = 0
          · rw [if_pos hend] at h
            simp only [Option.some.injEq] at h
            subst h
            cases f' with
            | zero => simp at hlen
            | succ f'' =>
                simp only [chainToEnd]
                rw [hc]
                dsimp only
                rw [if_pos hend]
          · rw [if_neg hend] at h
            cases hch : chainToEnd mem (some t) f with
            | none => rw [hch] at h; simp at h
            | some L1 =>
                rw [hch] at h
                simp only [Option.map_some', Option.some.injEq] at h
                subst h
                cases f' with
                | zero => simp at hlen
                | succ f'' =>
                    simp only [chainToEnd]
                    rw [hc]
                    dsimp only
                    rw [if_neg hend,
                      ih (some t) L1 hch f''
                        (by simp only [List.length_cons] at hlen; omega)]
                    rfl

theorem insertFront_getNextTag_none (mem ins : Blob) (D : Nat)
    (h24 : 24 ≤ hdrTotalSize mem)
    (hts : hdrTotalSize mem + D < 4294967296) :
    boot_info_get_next_tag (insertFront mem ins D) none = some 16 := by
  simp only [boot_info_get_next_tag]
  rw [insertFront_hdrTotalSize mem ins D hts, if_neg (by omega)]

theorem insertFront_getNextTag_ins (mem ins : Blob) (D : Nat)
    (h24 : 24 ≤ hdrTotalSize mem)
    (hts : hdrTotalSize mem + D < 4294967296)
    (hty : 0x8000 ≤ readU16 ins 0)
    (hsz : 8 ≤ readU32 ins 4)
    (hD : D = (readU32 ins 4 + 7) / 8 * 8)
    (hDlt : D + 7 < 4294967296) :
    boot_info_get_next_tag (insertFront mem ins D) (some 16) =
      some (16 + D) := by
  have hsle : readU32 ins 4 ≤ D := by rw [hD]; omega
  have hD8 : 8 ≤ D := by rw [hD]; omega
  simp only [boot_info_get_next_tag]
  rw [insertFront_hdrTotalSize mem ins D hts,
    insertFront_tagType_ins mem ins D (by omega),
    insertFront_tagSize_ins mem ins D (by omega)]
  have halign : alignUp8u32 (readU32 ins 4) = D := by
    unfold alignUp8u32
    rw [Nat.mod_eq_of_lt (by omega)]
    omega
  rw [if_neg (by omega), if_neg (by omega), halign, if_neg (by omega),
    if_neg (by omega)]

theorem insertFront_getNextTag_shift (mem ins : Blob) (D t : Nat)
    (hts : hdrTotalSize mem + D < 4294967296) (ht : 16 ≤ t) :
    boot_info_get_next_tag (insertFront mem ins D) (some (t + D)) =
      (boot_info_get_next_tag mem (some t)).map (· + D) := by
  simp only [boot_info_get_next_tag]
  rw [insertFront_hdrTotalSize mem ins D hts,
    insertFront_tagType_shift mem ins D t ht,
    insertFront_tagSize_shift mem ins D t ht]
  by_cases h0 : tagType mem t = 0
  · rw [if_pos h0, if_pos h0]
    rfl
  · rw [if_neg h0, if_neg h0]
    by_cases h8 : tagSize mem t < 8
    · rw [if_pos h8, if_pos h8]
      rfl
    · rw [if_neg h8, if_neg h8]
      by_cases hov : alignUp8u32 (tagSize mem t) < tagSize mem t
      · rw [if_pos hov, if_pos hov]
        rfl
      · rw [if_neg hov, if_neg hov]
        by_cases hb : t + alignUp8u32 (tagSize mem t) + 8 > hdrTotalSize mem
        · rw [if_pos (by omega), if_pos hb]
          rfl
        · rw [if_neg (by omega), if_neg hb]
          simp only [Option.map_some']
          exact congrArg some (by omega)

theorem insertFront_chain_shift (mem ins : Blob) (D : Nat)
    (hts : hdrTotalSize mem + D < 4294967296) :
    ∀ (fuel t : Nat), 16 ≤ t →
      chainToEnd (insertFront mem ins D) (some (t + D)) fuel =
        (chainToEnd mem (some t) fuel).map (List.map (· + D)) := by
  intro fuel
  induction fuel with
  | zero => intro t _; rfl
  | succ f ih =>
      intro t ht
      simp only [chainToEnd]
      rw [insertFront_getNextTag_shift mem ins D t hts ht]
      cases hc : boot_info_get_next_tag mem (some t) with
      | none => rfl
      | some p =>
          have hp : 16 ≤ p := cursor_pos_ge mem t p ht hc
          simp only [Option.map_some']
          rw [insertFront_tagType_shift mem ins D p hp]
          by_cases h0 : tagType mem p = 0
          · rw [if_pos h0, if_pos h0]
            rfl
          · rw [if_neg h0, if_neg h0, ih p hp]
            cases chainToEnd mem (some p) f with
            | none => rfl
            | some L1 => simp

theorem insertFront_chain_first (mem ins : Blob) (D : Nat)
    (h24 : 24 ≤ hdrTotalSize mem)
    (hts : hdrTotalSize mem + D < 4294967296)
    (hty : 0x8000 ≤ readU16 ins 0)
    (hsz : 8 ≤ readU32 ins 4)
    (hD : D = (readU32 ins 4 + 7) / 8 * 8)
    (hDlt : D + 7 < 4294967296) :
    ∀ fuel, chainToEnd (insertFront mem ins D) (some 16) fuel =
      (chainToEnd mem none fuel).map (List.map (· + D)) := by
  intro fuel
  cases fuel with
  | zero => rfl
  | succ f =>
      simp only [chainToEnd]
      rw [insertFront_getNextTag_ins mem ins D h24 hts hty hsz hD hDlt]
      have hfirst : boot_info_get_next_tag mem none = some 16 := by
        simp only [boot_info_get_next_tag]
        rw [if_neg (by omega)]
      rw [hfirst]
      dsimp only
      rw [insertFront_tagType_shift mem ins D 16 (by omega)]
      by_cases h0 : tagType mem 16 = 0
      · rw [if_pos h0, if_pos h0]
        rfl
      · rw [if_neg h0, if_neg h0,
          insertFront_chain_shift mem ins D hts f 16 (by omega)]
        cases chainToEnd mem (some 16) f with
        | none => rfl
        | some L1 => simp

theorem chainToEnd_succ (mem : Blob) (tag : Option Nat) (f : Nat) :
    chainToEnd mem tag (f + 1) =
      (match boot_info_get_next_tag mem tag with
       | none => none
       | some t =>
           if tagType mem t = 0 then some [t]
           else (chainToEnd mem (some t) f).map (t :: ·)) := rfl

theorem insertFront_chain_top (mem ins : Blob) (D : Nat) (L : List Nat)
    (h24 : 24 ≤ hdrTotalSize mem)
    (hts : hdrTotalSize mem + D < 4294967296)
    (hty : 0x8000 ≤ readU16 ins 0)
    (hsz : 8 ≤ readU32 ins 4)
    (hD : D = (readU32 ins 4 + 7) / 8 * 8)
    (hDlt : D + 7 < 4294967296)
    (hch : chainToEnd mem none 1001 = some L)
    (hlen : L.length ≤ 999) :
    chainToEnd (insertFront mem ins D) none 1001 =
      some (16 :: L.map (· + D)) := by
  have hD8 : 8 ≤ D := by rw [hD]; omega
  have he : (1001 : Nat) = 1000 + 1 := rfl
  rw [he, chainToEnd_succ (insertFront mem ins D) none 1000,
    insertFront_getNextTag_none mem ins D h24 hts]
  dsimp only
  rw [insertFront_tagType_ins mem ins D (by omega), if_neg (by omega),
    insertFront_chain_first mem ins D h24 hts hty hsz hD hDlt 1000,
    chain_fuel_adequate mem 1001 none L hch 1000 (by omega)]
  rfl

/-! #### The interpreter under front insertion -/
theorem insertFront_hasNullByte (mem ins : Blob) (D b n : Nat)
    (hb : 16 ≤ b) :
    hasNullByte (insertFront mem ins D) (b + D) n = hasNullByte mem b n := by
  unfold hasNullByte
  have hfun : (fun i => readU8 (insertFront mem ins D) (b + D + i) == 0) =
      (fun i => readU8 mem (b + i) == 0) := by
    funext i
    rw [show b + D + i = (b + i) + D from by omega,
      insertFront_readU8_shift mem ins D (b + i) (by omega)]
  rw [hfun]

theorem insertFront_usableTotal (mem ins : Blob) (D t : Nat)
    (ht : 16 ≤ t) :
    usableTotal (insertFront mem ins D) (t + D) = usableTotal mem t := by
  unfold usableTotal
  dsimp only
  rw [show t + D + 8 = (t + 8) + D from by omega,
    insertFront_readU32_shift mem ins D (t + 8) (by omega),
    show t + D + 12 = (t + 12) + D from by omega,
    insertFront_readU32_shift mem ins D (t + 12) (by omega)]
  apply List.foldl_ext
  intro a i _
  dsimp only
  rw [show t + D + 16 + i * readU32 mem (t + 8) % 4294967296 + 16 =
        (t + 16 + i * readU32 mem (t + 8) % 4294967296 + 16) + D
      from by omega,
    insertFront_readU32_shift mem ins D
      (t + 16 + i * readU32 mem (t + 8) % 4294967296 + 16) (by omega),
    show t + D + 16 + i * readU32 mem (t + 8) % 4294967296 + 8 =
        (t + 16 + i * readU32 mem (t + 8) % 4294967296 + 8) + D
      from by omega,
    insertFront_readU64_shift mem ins D
      (t + 16 + i * readU32 mem (t + 8) % 4294967296 + 8) (by omega)]

theorem insertFront_mmapMB (mem ins : Blob) (D t : Nat) (ht : 16 ≤ t) :
    mmapMB (insertFront mem ins D) (t + D) = mmapMB mem t := by
  unfold mmapMB
  rw [insertFront_usableTotal mem ins D t ht]

theorem insertFront_mmapValid (mem ins : Blob) (D t : Nat) (ht : 16 ≤ t) :
    mmapValid (insertFront mem ins D) (t + D) ↔ mmapValid mem t := by
  unfold mmapValid
  rw [insertFront_tagType_shift mem ins D t ht,
    insertFront_tagSize_shift mem ins D t ht,
    show t + D + 8 = (t + 8) + D from by omega,
    insertFront_readU32_shift mem ins D (t + 8) (by omega)]

theorem insertFront_fbValid (mem ins : Blob) (D t : Nat) (ht : 16 ≤ t) :
    fbValid (insertFront mem ins D) (t + D) ↔ fbValid mem t := by
  unfold fbValid
  rw [insertFront_tagType_shift mem ins D t ht,
    insertFront_tagSize_shift mem ins D t ht,
    show t + D + 16 = (t + 16) + D from by omega,
    insertFront_readU32_shift mem ins D (t + 16) (by omega),
    show t + D + 20 = (t + 20) + D from by omega,
    insertFront_readU32_shift mem ins D (t + 20) (by omega),
    show t + D + 28 = (t + 28) + D from by omega,
    insertFront_readU8_shift mem ins D (t + 28) (by omega),
    show t + D + 8 = (t + 8) + D from by omega,
    insertFront_readU64_shift mem ins D (t + 8) (by omega)]

theorem insertFront_cmdValid (mem ins : Blob) (D t : Nat) (ht : 16 ≤ t) :
    cmdValid (insertFront mem ins D) (t + D) ↔ cmdValid mem t := by
  unfold cmdValid
  rw [insertFront_tagType_shift mem ins D t ht,
    insertFront_tagSize_shift mem ins D t ht,
    show t + D + 8 = (t + 8) + D from by omega,
    insertFront_hasNullByte mem ins D (t + 8) (tagSize mem t - 8)
      (by omega)]

theorem insertFront_acpiValid (mem ins : Blob) (D t : Nat) (ht : 16 ≤ t) :
    acpiValid (insertFront mem ins D) (t + D) ↔ acpiValid mem t := by
  unfold acpiValid
  rw [insertFront_tagType_shift mem ins D t ht,
    insertFront_tagSize_shift mem ins D t ht,
    show t + D + 8 = (t + 8) + D from by omega,
    insertFront_readU64_shift mem ins D (t + 8) (by omega)]

theorem insertFront_smpValid (mem ins : Blob) (D t : Nat) (ht : 16 ≤ t) :
    smpValid (insertFront mem ins D) (t + D) ↔ smpValid mem t := by
  unfold smpValid
  rw [insertFront_tagType_shift mem ins D t ht,
    insertFront_tagSize_shift mem ins D t ht,
    show t + D + 8 = (t + 8) + D from by omega,
    insertFront_readU32_shift mem ins D (t + 8) (by omega)]

theorem insertFront_initrdValid (mem ins : Blob) (D t : Nat) (ht : 16 ≤ t) :
    initrdValid (insertFront mem ins D) (t + D) ↔ initrdValid mem t := by
  unfold initrdValid
  rw [insertFront_tagType_shift mem ins D t ht,
    insertFront_tagSize_shift mem ins D t ht,
    show t + D + 8 = (t + 8) + D from by omega,
    insertFront_readU64_shift mem ins D (t + 8) (by omega),
    show t + D + 16 = (t + 16) + D from by omega,
    insertFront_readU64_shift mem ins D (t + 16) (by omega)]

theorem insertFront_blValid (mem ins : Blob) (D t : Nat) (ht : 16 ≤ t) :
    blValid (insertFront mem ins D) (t + D) ↔ blValid mem t := by
  unfold blValid
  rw [insertFront_tagType_shift mem ins D t ht,
    insertFront_tagSize_shift mem ins D t ht,
    show t + D + 8 = (t + 8) + D from by omega,
    insertFront_hasNullByte mem ins D (t + 8) (tagSize mem t - 8)
      (by omega)]

theorem insertFront_processTag (mem ins : Blob) (D : Nat) (acc : Parsed)
    (t : Nat) (ht : 16 ≤ t) :
    processTag (insertFront mem ins D) (shiftParsed D acc) (t + D) =
      shiftParsed D (processTag mem acc t) := by
  have hcpu : readU32 (insertFront mem ins D) (t + D + 8) =
      readU32 mem (t + 8) := by
    rw [show t + D + 8 = (t + 8) + D from by omega,
      insertFront_readU32_shift mem ins D (t + 8) (by omega)]
  rw [processTag_eq, processTag_eq]
  by_cases h1 : mmapValid mem t
  · rw [if_pos ((insertFront_mmapValid mem ins D t ht).mpr h1), if_pos h1]
    simp [shiftParsed, insertFront_mmapMB mem ins D t ht]
  · rw [if_neg (fun hx => h1 ((insertFront_mmapValid mem ins D t ht).mp hx)),
      if_neg h1]
    by_cases h2 : fbValid mem t
    · rw [if_pos ((insertFront_fbValid mem ins D t ht).mpr h2), if_pos h2]
      simp [shiftParsed]
    · rw [if_neg (fun hx => h2 ((insertFront_fbValid mem ins D t ht).mp hx)),
        if_neg h2]
      by_cases h3 : cmdValid mem t
      · rw [if_pos ((insertFront_cmdValid mem ins D t ht).mpr h3),
          if_pos h3]
        simp [shiftParsed]
      · rw [if_neg
            (fun hx => h3 ((insertFront_cmdValid mem ins D t ht).mp hx)),
          if_neg h3]
        by_cases h4 : acpiValid mem t
        · rw [if_pos ((insertFront_acpiValid mem ins D t ht).mpr h4),
            if_pos h4]
          simp [shiftParsed]
        · rw [if_neg
              (fun hx => h4 ((insertFront_acpiValid mem ins D t ht).mp hx)),
            if_neg h4]
          by_cases h5 : smpValid mem t
          · rw [if_pos ((insertFront_smpValid mem ins D t ht).mpr h5),
              if_pos h5]
            simp [shiftParsed, hcpu]
          · rw [if_neg
                (fun hx => h5 ((insertFront_smpValid mem ins D t ht).mp hx)),
              if_neg h5]
            by_cases h6 : initrdValid mem t
            · rw [if_pos ((insertFront_initrdValid mem ins D t ht).mpr h6),
                if_pos h6]
              simp [shiftParsed]
            · rw [if_neg (fun hx =>
                    h6 ((insertFront_initrdValid mem ins D t ht).mp hx)),
                if_neg h6]
              by_cases h7 : blValid mem t
              · rw [if_pos ((insertFront_blValid mem ins D t ht).mpr h7),
                  if_pos h7]
                simp [shiftParsed]
              · rw [if_neg (fun hx =>
                      h7 ((insertFront_blValid mem ins D t ht).mp hx)),
                  if_neg h7]

theorem insertFront_foldl (mem ins : Blob) (D : Nat) :
    ∀ (L : List Nat) (acc : Parsed), (∀ x ∈ L, 16 ≤ x) →
      (L.map (· + D)).foldl (processTag (insertFront mem ins D))
          (shiftParsed D acc) =
        shiftParsed D (L.foldl (processTag mem) acc) := by
  intro L
  induction L with
  | nil => intro acc _; rfl
  | cons t L ih =>
      intro acc hall
      simp only [List.map_cons, List.foldl_cons]
      rw [insertFront_processTag mem ins D acc t
        (hall t (List.mem_cons_self t L))]
      exact ih (processTag mem acc t)
        (fun x hx => hall x (List.mem_cons_of_mem t hx))

theorem processTag_big_type (mem : Blob) (acc : Parsed) (t : Nat)
    (h : 12 ≤ tagType mem t) : processTag mem acc t = acc := by
  rw [processTag_eq]
  rw [if_neg (fun hx => by have := hx.1; omega),
    if_neg (fun hx => by have := hx.1; omega),
    if_neg (fun hx => by have := hx.1; omega),
    if_neg (fun hx => by have := hx.1; omega),
    if_neg (fun hx => by have := hx.1; omega),
    if_neg (fun hx => by have := hx.1; omega),
    if_neg (fun hx => by have := hx.1; omega)]

theorem myDropLastMap (f : Nat → Nat) : ∀ (l : List Nat),
    (l.map f).dropLast = l.dropLast.map f := by
  intro l
  induction l with
  | nil => rfl
  | cons a l ih =>
      cases l with
      | nil => rfl
      | cons b l => simp [ih]

/-- Claim C8 amended — inserting one well-formed unknown tag (type at least
0x8000, declared size at least 8, aligned extent `D = align_up(size, 8)`)
at the front of the tag sequence, with `total_size` adjusted accordingly,
leaves the parse outcome and every recovered flag and scalar unchanged and
shifts every recorded tag pointer by `D` — provided the adjusted
`total_size` still passes header validation (at most 16 MiB) and the
original chain reaches its End tag within 999 tags, so that the extra tag
stays within the 1000-tag cap.  (The counterexample shows the unqualified
claim fails at the 16 MiB boundary; the tag-count cap is a second boundary
of the same kind.) -/
theorem unknown_front_insertion_equiv (mem ins : Blob) (p0 : Parsed)
    (D : Nat) (L : List Nat)
    (hv : validateBlob mem = true)
    (hts : hdrTotalSize mem + D ≤ 16777216)
    (hty : 0x8000 ≤ readU16 ins 0)
    (hsz : 8 ≤ readU32 ins 4)
    (hD : D = (readU32 ins 4 + 7) / 8 * 8)
    (hch : chainToEnd mem none 1001 = some L)
    (hlen : L.length ≤ 999) :
    boot_info_parse (insertFront mem ins D) p0 =
      ((boot_info_parse mem p0).1,
       shiftParsed D (boot_info_parse mem p0).2) := by
  obtain ⟨hm, h24, h16M, hver, hres⟩ := validateBlob_true mem hv
  have hts' : hdrTotalSize mem + D < 4294967296 := by omega
  have hD8 : 8 ≤ D := by rw [hD]; omega
  have hDlt : D + 7 < 4294967296 := by omega
  have hv' : validateBlob (insertFront mem ins D) = true :=
    insertFront_validate mem ins D hv hts
  have hch' : chainToEnd (insertFront mem ins D) none 1001 =
      some (16 :: L.map (· + D)) :=
    insertFront_chain_top mem ins D L h24 hts' hty hsz hD hDlt hch hlen
  have hLne : L ≠ [] := chain_ne_nil mem none 1001 L hch
  have hall : ∀ x ∈ L, 16 ≤ x :=
    chain_mem_ge16 mem 1001 none L
      (by intro q hq; exact absurd hq (by simp)) hch
  rw [parse_eq_fold mem p0 L hv hch (by omega),
    parse_eq_fold (insertFront mem ins D) p0 (16 :: L.map (· + D)) hv' hch'
      (by simp only [List.length_cons, List.length_map]; omega)]
  have hmapne : L.map (· + D) ≠ [] := by
    intro hx
    exact hLne (List.map_eq_nil_iff.mp hx)
  rw [List.dropLast_cons_of_ne_nil hmapne, List.foldl_cons,
    processTag_big_type (insertFront mem ins D) initParsed 16
      (by rw [insertFront_tagType_ins mem ins D (by omega)]; omega),
    myDropLastMap (· + D) L]
  have hall' : ∀ x ∈ L.dropLast, 16 ≤ x := fun x hx =>
    hall x ((List.dropLast_sublist L).mem hx)
  have hfold := insertFront_foldl mem ins D L.dropLast initParsed hall'
  rw [show shiftParsed D initParsed = initParsed from rfl] at hfold
  rw [hfold]
  rfl

/-- Witness for the amended C8: inserting the vendor tag `ins8blob` in
front of the Scenario-A blob preserves the outcome and every recovered
field, with the recorded pointers shifted by 8. -/
theorem unknown_front_insertion_equiv_witness :
    boot_info_parse (insertFront a64mem ins8blob 8) initParsed =
      ((boot_info_parse a64mem initParsed).1,
       shiftParsed 8 (boot_info_parse a64mem initParsed).2) :=
  unknown_front_insertion_equiv a64mem ins8blob initParsed 8 [16, 56]
    (by decide) (by decide) (by decide) (by decide) (by decide) (by decide)
    (by decide)
